import Mathlib

/-!
Shallow embedding of the aral-ui conversation persistence and live-update
subsystem (`src/aral/storage/message_store.py`, `src/aral/storage/persistence.py`,
`src/aral/ui/server.py`, `src/aral/agent.py`), together with theorems settling
claims about it.

Python values appearing in JSON documents are modelled by `PyVal`; the file
system underneath a `FileStorageBackend` is modelled by `FS` (the index file
plus the per-conversation files, keyed by file stem).  Machine details the code
does not depend on are abstracted: timestamps are `Nat`s with an injective
`isoformat` rendering, and fresh uuids / clock readings are passed to each
operation as explicit arguments.  Python exceptions are modelled by `Except
PyErr`; the specific exceptions the source catches (`json.JSONDecodeError`,
`IOError`) are handled where the source handles them, while uncaught ones
(`TypeError`, `AttributeError`, `ValueError`, pydantic validation errors)
surface as `Except.error`.
-/

/-- A Python runtime value as it can appear in (de)serialized conversation
data: JSON values plus `datetime` objects (`dt`). -/
inductive PyVal where
  | null
  | bool (b : Bool)
  | num (n : Int)
  | str (s : String)
  | dt (t : Nat)
  | arr (xs : List PyVal)
  | obj (kvs : List (String × PyVal))

/-- Python exceptions that the modelled code can raise and does not catch. -/
inductive PyErr where
  | typeError
  | attributeError
  | valueError
  | validationError
deriving DecidableEq

/-- Association-list lookup (first binding wins), modelling Python dict read. -/
def lookupA {α : Type} : List (String × α) → String → Option α
  | [], _ => none
  | (k', v) :: rest, k => if k' = k then some v else lookupA rest k

/-- Association-list write: overwrite in place, or append a fresh binding,
matching Python dict assignment (insertion order preserved). -/
def insertA {α : Type} : List (String × α) → String → α → List (String × α)
  | [], k, v => [(k, v)]
  | (k', v') :: rest, k, v =>
    if k' = k then (k, v) :: rest else (k', v') :: insertA rest k v

/-- Abstract model of Python `datetime.isoformat`: an injective rendering of an
instant to a string.  The concrete ISO-8601 format is irrelevant to the code
under verification; only injectivity and parseability of produced strings
matter. -/
def isoformat (t : Nat) : String := String.mk (List.replicate (t + 1) 'T')

/-- Abstract model of `datetime.fromisoformat`: accepts exactly the strings
produced by `isoformat` (`none` models the `ValueError` raised otherwise). -/
def fromisoformat? (s : String) : Option Nat :=
  if !s.data.isEmpty && s.data.all (fun c => c == 'T') then some (s.data.length - 1)
  else none

theorem fromisoformat?_isoformat (t : Nat) : fromisoformat? (isoformat t) = some t := by
  simp [fromisoformat?, isoformat]

/-- Python substring test `needle in hay` for strings. -/
def strContains (hay needle : String) : Bool :=
  needle.isEmpty || (hay.splitOn needle).length != 1

/-- Python `v == s` for a string `s`: no non-`str` value compares equal to a
string. -/
def elemEqStr (s : String) (v : PyVal) : Bool :=
  match v with
  | .str t => t == s
  | _ => false

/-- Python `needle in v` for a string needle: key membership for dicts,
element membership for lists, substring test for strings, `TypeError`
otherwise. -/
def pyContains (needle : String) (v : PyVal) : Except PyErr Bool :=
  match v with
  | .obj kvs => .ok (kvs.any (fun kv => kv.1 == needle))
  | .arr xs => .ok (xs.any (elemEqStr needle))
  | .str s => .ok (strContains s needle)
  | _ => .error .typeError

/-- Python `v.get(k, d)`: only dicts have `.get` (`AttributeError` otherwise). -/
def pyGetD (v : PyVal) (k : String) (d : PyVal) : Except PyErr PyVal :=
  match v with
  | .obj kvs => .ok ((lookupA kvs k).getD d)
  | _ => .error .attributeError

/-- Python iteration `for x in v`: list elements, string characters
(one-character strings), dict keys; `TypeError` otherwise. -/
def pyIter (v : PyVal) : Except PyErr (List PyVal) :=
  match v with
  | .arr xs => .ok xs
  | .str s => .ok (s.data.map (fun c => .str (String.mk [c])))
  | .obj kvs => .ok (kvs.map (fun kv => PyVal.str kv.1))
  | _ => .error .typeError

/-- Python truthiness of a value. -/
def pyTruthy : PyVal → Bool
  | .null => false
  | .bool b => b
  | .num n => n != 0
  | .str s => !s.isEmpty
  | .dt _ => true
  | .arr xs => !xs.isEmpty
  | .obj kvs => !kvs.isEmpty

/-- Python `str(v)`, as used to build the conversation file name
`f"{conversation_id}.json"`.  Lists/dicts get a fixed crude rendering; in every
reachable state the rendered value is a string. -/
def pyStrOf : PyVal → String
  | .null => "None"
  | .bool true => "True"
  | .bool false => "False"
  | .num n => toString n
  | .str s => s
  | .dt t => isoformat t
  | .arr _ => "[list]"
  | .obj _ => "[dict]"

mutual

/-- `json.dump(..., cls=DateTimeEncoder)`: the value as serialized, with every
`datetime` replaced by its `isoformat` string. -/
def encodeDT : PyVal → PyVal
  | .null => .null
  | .bool b => .bool b
  | .num n => .num n
  | .str s => .str s
  | .dt t => .str (isoformat t)
  | .arr xs => .arr (encodeDTList xs)
  | .obj kvs => .obj (encodeDTKVs kvs)

def encodeDTList : List PyVal → List PyVal
  | [] => []
  | x :: xs => encodeDT x :: encodeDTList xs

def encodeDTKVs : List (String × PyVal) → List (String × PyVal)
  | [] => []
  | (k, v) :: kvs => (k, encodeDT v) :: encodeDTKVs kvs

end

mutual

/-- Whether a value contains a `datetime` anywhere (such a value is not the
parse of any JSON text). -/
def PyVal.hasDt : PyVal → Bool
  | .dt _ => true
  | .arr xs => PyVal.hasDtList xs
  | .obj kvs => PyVal.hasDtKVs kvs
  | _ => false

def PyVal.hasDtList : List PyVal → Bool
  | [] => false
  | x :: xs => x.hasDt || PyVal.hasDtList xs

def PyVal.hasDtKVs : List (String × PyVal) → Bool
  | [] => false
  | (_, v) :: kvs => v.hasDt || PyVal.hasDtKVs kvs

end

/-- Content of one file on disk: either text that parses as JSON (to `v`), or
text that does not. -/
inductive FileContent where
  | json (v : PyVal)
  | invalid

/-- The directory a `FileStorageBackend(save_dir)` operates on:
`message_store.json` (the index; `none` = file does not exist) and the
`conversations/{id}.json` files, keyed by file stem. -/
structure FS where
  storeFile : Option FileContent
  convFiles : List (String × FileContent)

/-- `json.load` of a file's content: `none` models the `json.JSONDecodeError`
raise.  A parse never produces a `datetime`-bearing value. -/
def jsonParse : FileContent → Option PyVal
  | .json v => if v.hasDt then none else some v
  | .invalid => none

/-- The datetime-restoring block of `load_conversation`, applied to the
top-level dict and to each message/action:
`if "created_at" in x and isinstance(x["created_at"], str):
x["created_at"] = datetime.fromisoformat(x["created_at"])`.
Indexing a string or list with the string key raises `TypeError`; an invalid
timestamp string raises `ValueError`; neither is caught by the source. -/
def convCreatedAt (v : PyVal) : Except PyErr PyVal := do
  let b ← pyContains "created_at" v
  if b then
    match v with
    | .obj kvs =>
      match lookupA kvs "created_at" with
      | some (.str s) =>
        match fromisoformat? s with
        | some t => .ok (.obj (insertA kvs "created_at" (.dt t)))
        | none => .error .valueError
      | _ => .ok v
    | .str _ => .error .typeError
    | .arr _ => .error .typeError
    | _ => .ok v
  else .ok v

mutual

/-- `for msg in conv_data.get("messages", []): ...` — iterate a value and run
the `created_at` conversion on each iterated element.  Only a list is mutated
by this (its elements alias the container); iterating a string or a dict leaves
the value unchanged (though the per-element checks can still raise). -/
def convertElems (v : PyVal) : Except PyErr PyVal := do
  let elems ← pyIter v
  let elems' ← convertElemsList elems
  match v with
  | .arr _ => .ok (.arr elems')
  | _ => .ok v

def convertElemsList : List PyVal → Except PyErr (List PyVal)
  | [] => .ok []
  | x :: xs => do
    let x' ← convCreatedAt x
    let xs' ← convertElemsList xs
    .ok (x' :: xs')

end

/-- The full datetime-restoring pass of `load_conversation`
(`message_store.py` lines 262-274): top-level `created_at`, then every
message, then every action.  The write-backs are the in-place list mutations;
`.get`'s default `[]` is a fresh list, so a missing key leaves the dict
unchanged. -/
def convertConvData (v : PyVal) : Except PyErr PyVal := do
  let v1 ← convCreatedAt v
  let msgs ← pyGetD v1 "messages" (.arr [])
  let msgs' ← convertElems msgs
  let v2 := match v1 with
    | .obj kvs =>
      if (lookupA kvs "messages").isSome then PyVal.obj (insertA kvs "messages" msgs') else v1
    | _ => v1
  let acts ← pyGetD v2 "actions" (.arr [])
  let acts' ← convertElems acts
  let v3 := match v2 with
    | .obj kvs =>
      if (lookupA kvs "actions").isSome then PyVal.obj (insertA kvs "actions" acts') else v2
    | _ => v2
  .ok v3

/-- `FileStorageBackend.load_conversation`: absent file or JSON decode failure
give `None` (the decode error is caught and logged); the datetime-restoring
pass can raise uncaught exceptions on unexpected (but parseable) content. -/
def FileStorageBackend.load_conversation (fs : FS) (cid : String) : Except PyErr (Option PyVal) :=
  match lookupA fs.convFiles cid with
  | none => .ok none
  | some content =>
    match jsonParse content with
    | none => .ok none
    | some v =>
      match convertConvData v with
      | .ok v' => .ok (some v')
      | .error e => .error e

/-- `FileStorageBackend._update_store_index`: add `cid` to the index file's
`conversation_ids` if absent.  A decode error on the index is caught (index
left unchanged); `.append` on a non-list or `.get` on a non-dict raise. -/
def FileStorageBackend.update_store_index (fs : FS) (cid : String) : Except PyErr FS :=
  match fs.storeFile with
  | none => .ok { fs with storeFile := some (.json (.obj [("conversation_ids", .arr [.str cid])])) }
  | some content =>
    match jsonParse content with
    | none => .ok fs
    | some sd =>
      match pyGetD sd "conversation_ids" (.arr []) with
      | .error e => .error e
      | .ok cur =>
        match pyContains cid cur with
        | .error e => .error e
        | .ok true => .ok fs
        | .ok false =>
          match sd with
          | .obj kvs =>
            match lookupA kvs "conversation_ids" with
            | some (.arr xs) =>
              let idx := PyVal.obj (insertA kvs "conversation_ids" (.arr (xs ++ [.str cid])))
              .ok { fs with storeFile := some (.json idx) }
            | some _ => .error .attributeError
            | none =>
              let idx := PyVal.obj (insertA kvs "conversation_ids" (.arr [.str cid]))
              .ok { fs with storeFile := some (.json idx) }
          | _ => .error .attributeError

/-- `FileStorageBackend.save_conversation`: write the serialized conversation
to its own file (temp-file-then-atomic-rename is a plain write in this
sequential model), then update the index.  On an index-update exception the
conversation file write has already happened. -/
def FileStorageBackend.save_conversation (fs : FS) (cid : String) (data : PyVal) :
    (Except PyErr Unit) × FS :=
  let fs1 : FS := { fs with convFiles := insertA fs.convFiles cid (.json (encodeDT data)) }
  match FileStorageBackend.update_store_index fs1 cid with
  | .ok fs2 => (.ok (), fs2)
  | .error e => (.error e, fs1)

/-- `FileStorageBackend.list_conversation_ids`: the stems of the files in the
conversations directory. -/
def FileStorageBackend.list_conversation_ids (fs : FS) : List String :=
  fs.convFiles.map Prod.fst

/-- The `for conv_id in ...: conversation = self.load_conversation(conv_id); if
conversation: store_data["conversations"][conv_id] = conversation` loop of
`load_store`.  An unhashable id (list/dict) raises `TypeError` at the dict
write; falsy loaded data (e.g. an empty dict) is skipped. -/
def FileStorageBackend.loadLoop (fs : FS) :
    List PyVal → List (String × PyVal) → Except PyErr (List (String × PyVal))
  | [], acc => .ok acc
  | e :: rest, acc =>
    match FileStorageBackend.load_conversation fs (pyStrOf e) with
    | .error err => .error err
    | .ok none => FileStorageBackend.loadLoop fs rest acc
    | .ok (some v) =>
      if pyTruthy v then
        match e with
        | .arr _ => .error .typeError
        | .obj _ => .error .typeError
        | _ => FileStorageBackend.loadLoop fs rest (insertA acc (pyStrOf e) v)
      else FileStorageBackend.loadLoop fs rest acc

/-- `FileStorageBackend.load_store`: read the index, load each listed
conversation, and fall back to enumerating the conversation files when that
yields nothing.  A decode error on the index is caught and yields the empty
store; the fallback writes nothing back.  The result is the
`store_data["conversations"]` mapping. -/
def FileStorageBackend.load_store (fs : FS) : Except PyErr (List (String × PyVal)) :=
  match fs.storeFile with
  | none => .ok []
  | some content =>
    match jsonParse content with
    | none => .ok []
    | some idx => do
      let ids ← pyGetD idx "conversation_ids" (.arr [])
      let elems ← pyIter ids
      let convs ← FileStorageBackend.loadLoop fs elems []
      if convs.isEmpty then
        FileStorageBackend.loadLoop fs
          ((FileStorageBackend.list_conversation_ids fs).map PyVal.str) []
      else .ok convs

/-- `FileStorageBackend.initialize` (named `initFS` here): create the
directories and, if the index file does not exist, write an empty index. -/
def FileStorageBackend.initFS (fs : FS) : FS :=
  match fs.storeFile with
  | none => { fs with storeFile := some (.json (.obj [("conversation_ids", .arr [])])) }
  | some _ => fs

/-- `Message` (pydantic model): id, content, role, creation time, metadata. -/
structure Message where
  id : String
  content : String
  role : String
  created_at : Nat
  metadata : List (String × PyVal)

/-- `ConversationAction` (pydantic model). -/
structure ConversationAction where
  id : String
  action_type : String
  data : List (String × PyVal)
  created_at : Nat
  metadata : List (String × PyVal)

/-- `Conversation` (pydantic model). -/
structure Conversation where
  id : String
  title : String
  created_at : Nat
  metadata : List (String × PyVal)
  messages : List Message
  actions : List ConversationAction

/-- The derived default title: `f"Conversation {id_value[:8]}"`. -/
def defaultTitle (id : String) : String := "Conversation " ++ id.take 8

/-- `Conversation.__init__` as invoked with an id and optional title/metadata
(the `create_conversation` call shape): a missing or falsy title is replaced by
the derived default. -/
def Conversation.make (id : String) (title : Option String)
    (metadata : List (String × PyVal)) (now : Nat) : Conversation :=
  { id := id
    title :=
      match title with
      | none => defaultTitle id
      | some t => if t = "" then defaultTitle id else t
    created_at := now
    metadata := metadata
    messages := []
    actions := [] }

/-- `Message.model_dump()` (field declaration order). -/
def Message.model_dump (m : Message) : PyVal :=
  .obj [("id", .str m.id), ("content", .str m.content), ("role", .str m.role),
        ("created_at", .dt m.created_at), ("metadata", .obj m.metadata)]

/-- `ConversationAction.model_dump()`. -/
def ConversationAction.model_dump (a : ConversationAction) : PyVal :=
  .obj [("id", .str a.id), ("action_type", .str a.action_type), ("data", .obj a.data),
        ("created_at", .dt a.created_at), ("metadata", .obj a.metadata)]

/-- `Conversation.model_dump()`. -/
def Conversation.model_dump (c : Conversation) : PyVal :=
  .obj [("id", .str c.id), ("title", .str c.title), ("created_at", .dt c.created_at),
        ("metadata", .obj c.metadata),
        ("messages", .arr (c.messages.map Message.model_dump)),
        ("actions", .arr (c.actions.map ConversationAction.model_dump))]

/-- Pydantic validation of a `str` field: a default (if any) fills a missing
key; a present non-string value is a validation error (lax mode does not
coerce numbers to strings). -/
def parseStrField (kvs : List (String × PyVal)) (k : String) (dflt : Option String) :
    Except PyErr String :=
  match lookupA kvs k with
  | some (.str s) => .ok s
  | some _ => .error .validationError
  | none =>
    match dflt with
    | some d => .ok d
    | none => .error .validationError

/-- Pydantic validation of a `datetime` field: accepts a datetime, an ISO
string, or a non-negative numeric timestamp; a missing key takes the
(model-supplied) default. -/
def parseDtField (kvs : List (String × PyVal)) (k : String) (dflt : Nat) : Except PyErr Nat :=
  match lookupA kvs k with
  | none => .ok dflt
  | some (.dt t) => .ok t
  | some (.str s) =>
    match fromisoformat? s with
    | some t => .ok t
    | none => .error .validationError
  | some (.num n) => if n < 0 then .error .validationError else .ok n.toNat
  | some _ => .error .validationError

/-- Pydantic validation of a `Dict[str, Any]` field with default `{}`. -/
def parseDictField (kvs : List (String × PyVal)) (k : String) :
    Except PyErr (List (String × PyVal)) :=
  match lookupA kvs k with
  | none => .ok []
  | some (.obj m) => .ok m
  | some _ => .error .validationError

/-- Pydantic validation of a required `Dict[str, Any]` field. -/
def parseDictFieldReq (kvs : List (String × PyVal)) (k : String) :
    Except PyErr (List (String × PyVal)) :=
  match lookupA kvs k with
  | none => .error .validationError
  | some (.obj m) => .ok m
  | some _ => .error .validationError

/-- `Message(**v)`: pydantic validation of one message.  `defId`/`defNow` stand
in for the `uuid4`/`datetime.now` default factories. -/
def parseMessage (defId : String) (defNow : Nat) (v : PyVal) : Except PyErr Message :=
  match v with
  | .obj kvs => do
    let id ← parseStrField kvs "id" (some defId)
    let content ← parseStrField kvs "content" none
    let role ← parseStrField kvs "role" (some "user")
    let created ← parseDtField kvs "created_at" defNow
    let md ← parseDictField kvs "metadata"
    .ok { id := id, content := content, role := role, created_at := created, metadata := md }
  | _ => .error .validationError

/-- `ConversationAction(**v)`: pydantic validation of one action. -/
def parseAction (defId : String) (defNow : Nat) (v : PyVal) : Except PyErr ConversationAction :=
  match v with
  | .obj kvs => do
    let id ← parseStrField kvs "id" (some defId)
    let at' ← parseStrField kvs "action_type" none
    let data ← parseDictFieldReq kvs "data"
    let created ← parseDtField kvs "created_at" defNow
    let md ← parseDictField kvs "metadata"
    .ok { id := id, action_type := at', data := data, created_at := created, metadata := md }
  | _ => .error .validationError

/-- Elementwise validation of a `List[...]` field's entries. -/
def parseElems {α : Type} (p : PyVal → Except PyErr α) : List PyVal → Except PyErr (List α)
  | [] => .ok []
  | x :: xs => do
    let a ← p x
    let rest ← parseElems p xs
    .ok (a :: rest)

/-- Pydantic validation of a `List[...]` field with default `[]`. -/
def parseListField {α : Type} (kvs : List (String × PyVal)) (k : String)
    (p : PyVal → Except PyErr α) : Except PyErr (List α) :=
  match lookupA kvs k with
  | none => .ok []
  | some (.arr xs) => parseElems p xs
  | some _ => .error .validationError

/-- `Conversation(**v)`: the custom `__init__` first replaces a missing/falsy
title by one derived from `data.get("id", ...)[:8]` (slicing a non-sliceable id
raises `TypeError`; slicing a list succeeds and the formatted slice becomes the
title), then pydantic validates every field. -/
def parseConversation (defId : String) (defNow : Nat) (v : PyVal) : Except PyErr Conversation :=
  match v with
  | .obj kvs => do
    let kvs1 ←
      match lookupA kvs "title" with
      | some tv =>
        if pyTruthy tv then pure kvs
        else
          match (lookupA kvs "id").getD (.str defId) with
          | .str s => pure (insertA kvs "title" (.str (defaultTitle s)))
          | .arr xs =>
            pure (insertA kvs "title" (.str ("Conversation " ++ pyStrOf (.arr (xs.take 8)))))
          | _ => Except.error .typeError
      | none =>
        match (lookupA kvs "id").getD (.str defId) with
        | .str s => pure (insertA kvs "title" (.str (defaultTitle s)))
        | .arr xs =>
          pure (insertA kvs "title" (.str ("Conversation " ++ pyStrOf (.arr (xs.take 8)))))
        | _ => Except.error .typeError
    let id ← parseStrField kvs1 "id" (some defId)
    let title ← parseStrField kvs1 "title" (some "")
    let created ← parseDtField kvs1 "created_at" defNow
    let md ← parseDictField kvs1 "metadata"
    let msgs ← parseListField kvs1 "messages" (parseMessage defId defNow)
    let acts ← parseListField kvs1 "actions" (parseAction defId defNow)
    .ok { id := id, title := title, created_at := created, metadata := md,
          messages := msgs, actions := acts }
  | _ => .error .typeError

/-- `backend_type` literal of the `MessageStore` constructor. -/
inductive BackendType where
  | memory
  | file
deriving DecidableEq

/-- The storage backend held by a `MessageStore`: the in-memory backend owns
its conversations dict; the file backend's state is the external `FS`. -/
inductive Backend where
  | memoryB (data : List (String × PyVal))
  | fileB

/-- The in-memory part of a `MessageStore`. -/
structure MStore where
  conversations : List (String × Conversation)
  backend : Backend

/-- A `MessageStore` together with the directory its file backend (if any)
operates on. -/
structure Sys where
  ms : MStore
  fs : FS

/-- `MessageStore._save_conversation`: `model_dump` the conversation and hand
it to the backend (keyed by `conversation.id`). -/
def MessageStore.save_conversation (s : Sys) (c : Conversation) : (Except PyErr Unit) × Sys :=
  match s.ms.backend with
  | .memoryB data =>
    (.ok (), { s with ms := { s.ms with backend := .memoryB (insertA data c.id c.model_dump) } })
  | .fileB =>
    let (r, fs') := FileStorageBackend.save_conversation s.fs c.id c.model_dump
    (r, { s with fs := fs' })

/-- `MessageStore.create_conversation`: build a fresh `Conversation` (an empty
or missing id argument falls back to a fresh uuid, modelled by `genId`), put it
in the mapping, and persist it.  A backend exception leaves the mapping already
updated. -/
def MessageStore.create_conversation (s : Sys) (title : Option String) (idArg : Option String)
    (metadata : Option (List (String × PyVal))) (genId : String) (now : Nat) :
    (Except PyErr Conversation) × Sys :=
  let cid :=
    match idArg with
    | some i => if i = "" then genId else i
    | none => genId
  let conv := Conversation.make cid title (metadata.getD []) now
  let s1 : Sys :=
    { s with ms := { s.ms with conversations := insertA s.ms.conversations conv.id conv } }
  match MessageStore.save_conversation s1 conv with
  | (.ok _, s2) => (.ok conv, s2)
  | (.error e, s2) => (.error e, s2)

/-- `MessageStore.add_message`: resolve or lazily create the conversation,
append a fresh `Message` to it (the in-place list append, visible through the
mapping entry the object sits under), persist, and return the message. -/
def MessageStore.add_message (s : Sys) (cid content role : String)
    (metadata : Option (List (String × PyVal)))
    (genConvId genMsgId : String) (nowConv nowMsg : Nat) :
    (Except PyErr Message) × Sys :=
  let resolved : (Except PyErr (String × Conversation)) × Sys :=
    match lookupA s.ms.conversations cid with
    | some conv => (.ok (cid, conv), s)
    | none =>
      match MessageStore.create_conversation s none (some cid) none genConvId nowConv with
      | (.ok conv, s1) => (.ok (conv.id, conv), s1)
      | (.error e, s1) => (.error e, s1)
  match resolved with
  | (.error e, s1) => (.error e, s1)
  | (.ok (key, conv), s1) =>
    let m : Message :=
      { id := genMsgId, content := content, role := role,
        created_at := nowMsg, metadata := metadata.getD [] }
    let conv' : Conversation := { conv with messages := conv.messages ++ [m] }
    let s2 : Sys :=
      { s1 with ms := { s1.ms with conversations := insertA s1.ms.conversations key conv' } }
    match MessageStore.save_conversation s2 conv' with
    | (.ok _, s3) => (.ok m, s3)
    | (.error e, s3) => (.error e, s3)

/-- `MessageStore.get_conversation`. -/
def MessageStore.get_conversation (s : Sys) (cid : String) : Option Conversation :=
  lookupA s.ms.conversations cid

/-- `MessageStore.get_conversation_messages`. -/
def MessageStore.get_conversation_messages (s : Sys) (cid : String) : List Message :=
  match MessageStore.get_conversation s cid with
  | none => []
  | some c => c.messages

/-- The `for conv_id, conv_data in ...: self.conversations[conv_id] =
Conversation(**conv_data)` loop of `MessageStore._load_from_backend`. -/
def MessageStore.parseLoop (defId : String) (defNow : Nat) :
    List (String × PyVal) → List (String × Conversation) →
    Except PyErr (List (String × Conversation))
  | [], acc => .ok acc
  | (k, v) :: rest, acc =>
    match parseConversation defId defNow v with
    | .error e => .error e
    | .ok c => MessageStore.parseLoop defId defNow rest (insertA acc k c)

/-- `MessageStore.__init__`: backend selection (a non-empty `save_dir` selects
the file backend, silently overriding `backend_type`; `backend_type="file"`
without a usable `save_dir` raises `ValueError`), then `initialize()` and
`_load_from_backend()`. -/
def MessageStore.init (saveDir : Option String) (bt : BackendType) (fs : FS)
    (defId : String) (defNow : Nat) : Except PyErr (MStore × FS) :=
  match saveDir with
  | some d =>
    if d = "" then
      match bt with
      | .file => .error .valueError
      | .memory => .ok ({ conversations := [], backend := .memoryB [] }, fs)
    else
      let fs1 := FileStorageBackend.initFS fs
      match FileStorageBackend.load_store fs1 with
      | .error e => .error e
      | .ok data =>
        match MessageStore.parseLoop defId defNow data [] with
        | .error e => .error e
        | .ok convs => .ok ({ conversations := convs, backend := .fileB }, fs1)
  | none =>
    match bt with
    | .file => .error .valueError
    | .memory => .ok ({ conversations := [], backend := .memoryB [] }, fs)

/-- A live-update payload after `send_update` stamped it: the stamped
conversation id plus an abstract identity for the rest of the (non-empty)
payload dict.  (`send_update` returns before any effect on an empty payload;
such calls are not modelled as events.) -/
structure Upd where
  cid : String
  uid : Nat
deriving DecidableEq

/-- The update-broadcast state visible to one websocket connection's delivery
task: the subscription it declared (`bound`; `""` models an absent/falsy
subscription), the per-conversation queues, the default queue, and the log of
payloads the delivery loop has sent to this connection, each tagged with the
queue it was taken from (`true` = conversation queue, `false` = default
queue). -/
structure BC where
  bound : String
  queues : List (String × List Upd)
  defQ : List Upd
  delivered : List (Bool × Upd)

/-- `UIServer.send_update`: stamp the payload with the conversation id and
enqueue it on the conversation's queue (created on demand) and on the default
queue. -/
def UIServer.send_update (s : BC) (cid : String) (uid : Nat) : BC :=
  let u : Upd := { cid := cid, uid := uid }
  let qs :=
    match lookupA s.queues cid with
    | some q => insertA s.queues cid (q ++ [u])
    | none => insertA s.queues cid [u]
  { s with queues := qs, defQ := s.defQ ++ [u] }

/-- The default-queue half of one `process_queue` iteration: pop the default
queue if non-empty and deliver the popped payload only if the connection is
unbound or the stamp matches its subscription (a non-matching payload is
dropped for this connection). -/
def processDefault (s : BC) : BC :=
  match s.defQ with
  | [] => s
  | u :: q =>
    if s.bound = "" || u.cid == s.bound then
      { s with defQ := q, delivered := s.delivered ++ [(false, u)] }
    else { s with defQ := q }

/-- One iteration of the `process_queue` loop body: take from the bound
conversation's queue when the subscription is set, that queue exists and is
non-empty; otherwise fall through to the default queue. -/
def processQueueStep (s : BC) : BC :=
  if s.bound = "" then processDefault s
  else
    match lookupA s.queues s.bound with
    | some (u :: q) =>
      { s with queues := insertA s.queues s.bound q, delivered := s.delivered ++ [(true, u)] }
    | _ => processDefault s

/-- An event of the broadcast subsystem: an agent-side `send_update` call, or
one iteration of this connection's delivery loop. -/
inductive BEv where
  | send (cid : String) (uid : Nat)
  | deliver

/-- Run a schedule of events. -/
def BC.run (s : BC) : List BEv → BC
  | [] => s
  | .send cid uid :: evs => BC.run (UIServer.send_update s cid uid) evs
  | .deliver :: evs => BC.run (processQueueStep s) evs

/-- The state right after `connect_websocket` for a connection whose
subscription handshake declared `cid` (`""` = no usable subscription): the
conversation queue is created for a bound connection; queues start empty. -/
def BC.connect (cid : String) : BC :=
  { bound := cid
    queues := if cid = "" then [] else [(cid, [])]
    defQ := []
    delivered := [] }

/-- The stamped payloads that `send_update` was called with for conversation
`cid`, in call order. -/
def sentTo (cid : String) : List BEv → List Upd
  | [] => []
  | .send c u :: evs =>
    if c = cid then { cid := c, uid := u } :: sentTo cid evs else sentTo cid evs
  | .deliver :: evs => sentTo cid evs

/-- `str(e)` for a store-level exception, as used in the 500 detail field. -/
def PyErr.render : PyErr → String
  | .typeError => "TypeError"
  | .attributeError => "AttributeError"
  | .valueError => "ValueError"
  | .validationError => "ValidationError"

/-- `BaseAgent.on_message`: append the user message to the store, run the
user-overridable `_handle_message` (modelled as a function returning either a
response or a raised exception's message), append the assistant response,
return the response.  An exception propagates, leaving every mutation already
made in place. -/
def BaseAgent.on_message (handler : String → String → Except String String)
    (s : Sys) (cid msg : String) (g1 g2 g3 g4 : String) (n1 n2 n3 n4 : Nat) :
    (Except String String) × Sys :=
  match MessageStore.add_message s cid msg "user" none g1 g2 n1 n2 with
  | (.error e, s1) => (.error e.render, s1)
  | (.ok _, s1) =>
    match handler cid msg with
    | .error e => (.error e, s1)
    | .ok resp =>
      match MessageStore.add_message s1 cid resp "assistant" none g3 g4 n3 n4 with
      | (.error e, s2) => (.error e.render, s2)
      | (.ok _, s2) => (.ok resp, s2)

/-- An HTTP JSON response: status code and body. -/
structure HttpResp where
  status : Nat
  body : PyVal

/-- `POST /api/message` (`handle_message` in `server.py`): the two required
fields are read with `.get` (absent → `None`) and rejected with a 400 when
absent or falsy; then the agent runs inside a try/except that turns any
exception into a 500 with an error/detail body. -/
def handle_message (handler : String → String → Except String String)
    (s : Sys) (reqCid reqMsg : Option String) (g1 g2 g3 g4 : String) (n1 n2 n3 n4 : Nat) :
    HttpResp × Sys :=
  let cid := reqCid.getD ""
  let msg := reqMsg.getD ""
  if cid = "" || msg = "" then
    ({ status := 400, body := .obj [("error", .str "conversation_id and message are required")] },
     s)
  else
    match BaseAgent.on_message handler s cid msg g1 g2 g3 g4 n1 n2 n3 n4 with
    | (.ok resp, s') => ({ status := 200, body := .obj [("response", .str resp)] }, s')
    | (.error e, s') =>
      ({ status := 500,
         body := .obj [("error", .str "Failed to process message"), ("detail", .str e)] }, s')

/-- `JsonFileStorage.load_conversation` (`persistence.py`): like the backend's
loader, but deserializing all the way to a `Conversation`; pydantic validation
errors are not among the caught exception classes and propagate. -/
def JsonFileStorage.load_conversation (fs : FS) (cid defId : String) (defNow : Nat) :
    Except PyErr (Option Conversation) :=
  match lookupA fs.convFiles cid with
  | none => .ok none
  | some content =>
    match jsonParse content with
    | none => .ok none
    | some v =>
      match convertConvData v with
      | .error e => .error e
      | .ok v' =>
        match parseConversation defId defNow v' with
        | .error e => .error e
        | .ok c => .ok (some c)

/-- `JsonFileStorage.save_conversation`: dump the conversation to the file
named by `conversation.id` and update the index; the index-update code is
line-for-line the backend's. -/
def JsonFileStorage.save_conversation (fs : FS) (c : Conversation) : (Except PyErr Unit) × FS :=
  FileStorageBackend.save_conversation fs c.id c.model_dump

/-- The per-conversation saving loop of `JsonFileStorage.save_store`. -/
def JsonFileStorage.saveLoop : List (String × Conversation) → FS → (Except PyErr Unit) × FS
  | [], fs => (.ok (), fs)
  | (_, c) :: rest, fs =>
    match JsonFileStorage.save_conversation fs c with
    | (.ok _, fs1) => JsonFileStorage.saveLoop rest fs1
    | (.error e, fs1) => (.error e, fs1)

/-- `JsonFileStorage.save_store`: write the index from the store's keys, then
save every conversation. -/
def JsonFileStorage.save_store (fs : FS) (convs : List (String × Conversation)) :
    (Except PyErr Unit) × FS :=
  let idx := PyVal.obj [("conversation_ids", .arr (convs.map (fun kv => PyVal.str kv.1)))]
  JsonFileStorage.saveLoop convs { fs with storeFile := some (.json idx) }

/-- The `if conversation: store.conversations[conv_id] = conversation` loop of
`JsonFileStorage.load_store`: a loaded `Conversation` object is always truthy;
an unhashable id raises at the dict write. -/
def JsonFileStorage.loadLoop (fs : FS) (defId : String) (defNow : Nat) :
    List PyVal → List (String × Conversation) → Except PyErr (List (String × Conversation))
  | [], acc => .ok acc
  | e :: rest, acc =>
    match JsonFileStorage.load_conversation fs (pyStrOf e) defId defNow with
    | .error err => .error err
    | .ok none => JsonFileStorage.loadLoop fs defId defNow rest acc
    | .ok (some c) =>
      match e with
      | .arr _ => .error .typeError
      | .obj _ => .error .typeError
      | _ => JsonFileStorage.loadLoop fs defId defNow rest (insertA acc (pyStrOf e) c)

/-- `JsonFileStorage.load_store`: `None` when the index file is absent or does
not parse; otherwise load via the index, fall back to enumerating files when
that yields nothing, and — only when the fallback found conversations —
persist a corrected index via `save_store`. -/
def JsonFileStorage.load_store (fs : FS) (defId : String) (defNow : Nat) :
    Except PyErr ((Option (List (String × Conversation))) × FS) :=
  match fs.storeFile with
  | none => .ok (none, fs)
  | some content =>
    match jsonParse content with
    | none => .ok (none, fs)
    | some idx =>
      match pyGetD idx "conversation_ids" (.arr []) with
      | .error e => .error e
      | .ok ids =>
        match pyIter ids with
        | .error e => .error e
        | .ok elems =>
          match JsonFileStorage.loadLoop fs defId defNow elems [] with
          | .error e => .error e
          | .ok convs =>
            if convs.isEmpty then
              match JsonFileStorage.loadLoop fs defId defNow
                  ((FileStorageBackend.list_conversation_ids fs).map PyVal.str) [] with
              | .error e => .error e
              | .ok convs2 =>
                if convs2.isEmpty then .ok (some convs2, fs)
                else
                  match JsonFileStorage.save_store fs convs2 with
                  | (.ok _, fs') => .ok (some convs2, fs')
                  | (.error e, _) => .error e
            else .ok (some convs, fs)

theorem lookupA_insertA_self {α : Type} (l : List (String × α)) (k : String) (v : α) :
    lookupA (insertA l k v) k = some v := by
  induction l with
  | nil => simp [insertA, lookupA]
  | cons hd tl ih =>
    rcases hd with ⟨k', v'⟩
    by_cases h : k' = k
    · simp [insertA, h, lookupA]
    · simp [insertA, h, lookupA, ih]

theorem lookupA_insertA_ne {α : Type} (l : List (String × α)) (k k' : String) (v : α)
    (h : k' ≠ k) : lookupA (insertA l k v) k' = lookupA l k' := by
  induction l with
  | nil => simp [insertA, lookupA, Ne.symm h]
  | cons hd tl ih =>
    rcases hd with ⟨k₀, v₀⟩
    by_cases h0 : k₀ = k
    · subst h0
      simp [insertA, lookupA, Ne.symm h]
    · simp only [insertA, if_neg h0, lookupA]
      by_cases h1 : k₀ = k'
      · simp [h1]
      · simp [h1, ih]

/-- C9: a conversation created without a title (absent or falsy/empty) gets
the derived title: the string "Conversation " followed by the first 8
characters of the identifier (the whole identifier when it is shorter). -/
theorem created_without_title_gets_derived_title (id : String) (title : Option String)
    (md : List (String × PyVal)) (now : Nat)
    (h : title = none ∨ title = some "") :
    (Conversation.make id title md now).title = "Conversation " ++ id.take 8 := by
  rcases h with h | h <;> subst h <;> simp [Conversation.make, defaultTitle]

/-- Witness for C9: creating conversation "c1" with no title yields the title
"Conversation c1". -/
theorem created_without_title_gets_derived_title_witness :
    (Conversation.make "c1" none [] 0).title = "Conversation c1" := by
  rw [created_without_title_gets_derived_title "c1" none [] 0 (Or.inl rfl)]
  rfl

/-- An empty target directory (no index file, no conversation files). -/
def emptyFS : FS := { storeFile := none, convFiles := [] }

/-- Counterexample for C7: constructing a `MessageStore` with a save directory
while explicitly requesting the in-memory backend is not rejected — the
construction succeeds, silently selecting the file backend. -/
theorem save_dir_with_memory_backend_accepted :
    MessageStore.init (some "data") BackendType.memory emptyFS "u" 0 =
      .ok ({ conversations := [], backend := .fileB },
           { storeFile := some (.json (.obj [("conversation_ids", .arr [])])),
             convFiles := [] }) := by
  rfl

/-- C7 (amended): supplying a (non-empty) save directory always selects the
file backend, overriding an explicit in-memory request rather than rejecting
it; the configuration rejected at construction time with `ValueError` is
requesting the file backend while supplying no usable save directory. -/
theorem backend_selection (fs : FS) (dId : String) (dNow : Nat) :
    MessageStore.init none BackendType.file fs dId dNow = .error .valueError ∧
    MessageStore.init (some "") BackendType.file fs dId dNow = .error .valueError ∧
    (∀ d st fs', d ≠ "" →
      MessageStore.init (some d) BackendType.memory fs dId dNow = .ok (st, fs') →
      st.backend = .fileB) := by
  refine ⟨rfl, rfl, ?_⟩
  intro d st fs' hd h
  simp only [MessageStore.init, if_neg hd] at h
  split at h
  · exact absurd h (by simp)
  · split at h
    · exact absurd h (by simp)
    · simp only [Except.ok.injEq, Prod.mk.injEq] at h
      rw [← h.1]

/-- Witness for C7's amended theorem at a concrete configuration. -/
theorem backend_selection_witness :
    MessageStore.init none BackendType.file emptyFS "u" 0 = .error .valueError ∧
    ({ conversations := [], backend := .fileB } : MStore).backend = .fileB := by
  refine ⟨(backend_selection emptyFS "u" 0).1, ?_⟩
  exact (backend_selection emptyFS "u" 0).2.2 "data" _ _ (by decide)
    save_dir_with_memory_backend_accepted

/-- Counterexample for C3: a conversation file whose content is valid JSON but
not an object — here the JSON text `[]` — makes `load_conversation` raise an
uncaught `AttributeError` (at `conv_data.get("messages", [])`) instead of
returning an absent result. -/
theorem load_conversation_raises_on_json_array :
    FileStorageBackend.load_conversation
      { storeFile := none, convFiles := [("c", .json (.arr []))] } "c" =
      .error .attributeError := by
  rfl

/-- C3 (amended): `load_conversation` returns an absent result, raising
nothing, whenever the conversation file does not exist or its content fails to
parse as JSON; content that parses but has an unexpected shape can instead
raise an uncaught exception. -/
theorem load_conversation_absent_or_unparseable (fs : FS) (cid : String) :
    (lookupA fs.convFiles cid = none →
      FileStorageBackend.load_conversation fs cid = .ok none) ∧
    (∀ content, lookupA fs.convFiles cid = some content → jsonParse content = none →
      FileStorageBackend.load_conversation fs cid = .ok none) := by
  constructor
  · intro h
    simp [FileStorageBackend.load_conversation, h]
  · intro content h hp
    simp [FileStorageBackend.load_conversation, h, hp]

/-- Witness for C3's amended theorem: an absent file and a file holding
unparseable text both yield an absent result. -/
theorem load_conversation_absent_or_unparseable_witness :
    FileStorageBackend.load_conversation
      { storeFile := none, convFiles := [("bad", .invalid)] } "absent" = .ok none ∧
    FileStorageBackend.load_conversation
      { storeFile := none, convFiles := [("bad", .invalid)] } "bad" = .ok none := by
  exact ⟨(load_conversation_absent_or_unparseable _ "absent").1 rfl,
         (load_conversation_absent_or_unparseable _ "bad").2 .invalid rfl rfl⟩

/-- A well-formed index file: a JSON object (with no stray datetimes, so it
parses) whose `conversation_ids` key holds a list. -/
def IndexWF (fs : FS) : Prop :=
  ∃ kvs ids, fs.storeFile = some (.json (.obj kvs)) ∧ PyVal.hasDtKVs kvs = false ∧
    lookupA kvs "conversation_ids" = some (.arr ids)

theorem hasDtList_append (xs ys : List PyVal) :
    PyVal.hasDtList (xs ++ ys) = (PyVal.hasDtList xs || PyVal.hasDtList ys) := by
  induction xs with
  | nil => simp [PyVal.hasDtList]
  | cons x xs ih => simp [PyVal.hasDtList, ih, Bool.or_assoc]

theorem hasDt_of_lookupA (kvs : List (String × PyVal)) (k : String) (v : PyVal)
    (h : lookupA kvs k = some v) (hk : PyVal.hasDtKVs kvs = false) : v.hasDt = false := by
  induction kvs with
  | nil => simp [lookupA] at h
  | cons hd tl ih =>
    rcases hd with ⟨k₀, v₀⟩
    simp only [PyVal.hasDtKVs, Bool.or_eq_false_iff] at hk
    simp only [lookupA] at h
    by_cases h0 : k₀ = k
    · rw [if_pos h0] at h
      cases h
      exact hk.1
    · rw [if_neg h0] at h
      exact ih h hk.2

theorem hasDtKVs_insertA (kvs : List (String × PyVal)) (k : String) (v : PyVal)
    (hk : PyVal.hasDtKVs kvs = false) (hv : v.hasDt = false) :
    PyVal.hasDtKVs (insertA kvs k v) = false := by
  induction kvs with
  | nil => simp [insertA, PyVal.hasDtKVs, hv]
  | cons hd tl ih =>
    rcases hd with ⟨k₀, v₀⟩
    simp only [PyVal.hasDtKVs, Bool.or_eq_false_iff] at hk
    by_cases h0 : k₀ = k
    · simp [insertA, h0, PyVal.hasDtKVs, hv, hk.2]
    · simp [insertA, h0, PyVal.hasDtKVs, hk.1, ih hk.2]

/-- Under a well-formed index, `_update_store_index` succeeds, leaves the
conversation files alone, keeps the index well-formed, and afterwards the
index lists `cid`. -/
theorem update_store_index_wf (fs : FS) (cid : String) (h : IndexWF fs) :
    ∃ fs', FileStorageBackend.update_store_index fs cid = .ok fs' ∧
      fs'.convFiles = fs.convFiles ∧ IndexWF fs' ∧
      ∃ kvs' ids', fs'.storeFile = some (.json (.obj kvs')) ∧
        lookupA kvs' "conversation_ids" = some (.arr ids') ∧ PyVal.str cid ∈ ids' := by
  rcases h with ⟨kvs, ids, hsf, hdt, hids⟩
  have hparse : jsonParse (.json (.obj kvs)) = some (.obj kvs) := by
    simp [jsonParse, PyVal.hasDt, hdt]
  by_cases hin : ids.any (elemEqStr cid)
  · refine ⟨fs, ?_, rfl, ⟨kvs, ids, hsf, hdt, hids⟩, kvs, ids, hsf, hids, ?_⟩
    · simp [FileStorageBackend.update_store_index, hsf, hparse, pyGetD, hids, pyContains, hin]
    · rcases List.any_eq_true.mp hin with ⟨x, hx, hxeq⟩
      cases x with
      | str t =>
        have : t = cid := by simpa [elemEqStr] using hxeq
        subst this; exact hx
      | null => simp [elemEqStr] at hxeq
      | bool b => simp [elemEqStr] at hxeq
      | num n => simp [elemEqStr] at hxeq
      | dt t => simp [elemEqStr] at hxeq
      | arr xs => simp [elemEqStr] at hxeq
      | obj kvs => simp [elemEqStr] at hxeq
  · have hidsDt : PyVal.hasDtList ids = false := by
      have := hasDt_of_lookupA kvs "conversation_ids" (.arr ids) hids hdt
      simpa [PyVal.hasDt] using this
    refine ⟨{ fs with storeFile := some (.json (.obj
        (insertA kvs "conversation_ids" (.arr (ids ++ [.str cid]))))) }, ?_, rfl, ?_, ?_⟩
    · simp [FileStorageBackend.update_store_index, hsf, hparse, pyGetD, hids, pyContains, hin]
    · refine ⟨_, ids ++ [.str cid], rfl, ?_, lookupA_insertA_self _ _ _⟩
      exact hasDtKVs_insertA _ _ _ hdt
        (by simp [PyVal.hasDt, hasDtList_append, hidsDt, PyVal.hasDtList])
    · refine ⟨_, ids ++ [.str cid], rfl, lookupA_insertA_self _ _ _, by simp⟩

/-- Under a well-formed index, `FileStorageBackend.save_conversation` succeeds
and the conversation file now holds the DateTimeEncoder dump of the data. -/
theorem fsb_save_conversation_wf (fs : FS) (cid : String) (data : PyVal) (h : IndexWF fs) :
    ∃ fs', FileStorageBackend.save_conversation fs cid data = (.ok (), fs') ∧
      fs'.convFiles = insertA fs.convFiles cid (.json (encodeDT data)) ∧ IndexWF fs' ∧
      ∃ kvs' ids', fs'.storeFile = some (.json (.obj kvs')) ∧
        lookupA kvs' "conversation_ids" = some (.arr ids') ∧ PyVal.str cid ∈ ids' := by
  have h1 : IndexWF { fs with convFiles := insertA fs.convFiles cid (.json (encodeDT data)) } := by
    rcases h with ⟨kvs, ids, hsf, hdt, hids⟩
    exact ⟨kvs, ids, hsf, hdt, hids⟩
  rcases update_store_index_wf _ cid h1 with ⟨fs', hup, hcf, hwf', hk⟩
  refine ⟨fs', ?_, ?_, hwf', hk⟩
  · simp [FileStorageBackend.save_conversation, hup]
  · rw [hcf]

/-- `MessageStore._save_conversation` on the file backend, under a well-formed
index: succeeds, leaves the in-memory store alone, writes the conversation
file, and the index afterwards lists the conversation's id. -/
theorem ms_save_conversation_fileB (s : Sys) (c : Conversation)
    (hb : s.ms.backend = .fileB) (hwf : IndexWF s.fs) :
    ∃ s', MessageStore.save_conversation s c = (.ok (), s') ∧
      s'.ms = s.ms ∧ IndexWF s'.fs ∧
      s'.fs.convFiles = insertA s.fs.convFiles c.id (.json (encodeDT c.model_dump)) ∧
      ∃ kvs' ids', s'.fs.storeFile = some (.json (.obj kvs')) ∧
        lookupA kvs' "conversation_ids" = some (.arr ids') ∧ PyVal.str c.id ∈ ids' := by
  rcases fsb_save_conversation_wf s.fs c.id c.model_dump hwf with ⟨fs', hs, hcf, hwf', hk⟩
  refine ⟨{ s with fs := fs' }, ?_, rfl, hwf', hcf, hk⟩
  simp [MessageStore.save_conversation, hb, hs]

/-- `_save_conversation` never touches the in-memory conversations mapping. -/
theorem save_conversation_preserves_conversations (s : Sys) (c : Conversation) :
    ((MessageStore.save_conversation s c).2).ms.conversations = s.ms.conversations := by
  cases hb : s.ms.backend with
  | memoryB data => simp [MessageStore.save_conversation, hb]
  | fileB =>
    rcases hs : FileStorageBackend.save_conversation s.fs c.id c.model_dump with ⟨r, fs'⟩
    simp [MessageStore.save_conversation, hb, hs]

/-- C10: `create_conversation` on an id already present in the store does not
fail and does not return the existing conversation: it builds a fresh empty
conversation, overwrites the mapping entry, and persists the fresh
conversation to the backend, discarding the previously stored messages. -/
theorem create_conversation_existing_id_replaces (s : Sys) (id : String) (cOld : Conversation)
    (title : Option String) (md : Option (List (String × PyVal))) (genId : String) (now : Nat)
    (hex : lookupA s.ms.conversations id = some cOld)
    (hid : id ≠ "")
    (hb : s.ms.backend = .fileB)
    (hwf : IndexWF s.fs) :
    ∃ s', MessageStore.create_conversation s title (some id) md genId now =
        (.ok (Conversation.make id title (md.getD []) now), s') ∧
      lookupA s'.ms.conversations id = some (Conversation.make id title (md.getD []) now) ∧
      (Conversation.make id title (md.getD []) now).messages = [] ∧
      lookupA s'.fs.convFiles id =
        some (.json (encodeDT (Conversation.make id title (md.getD []) now).model_dump)) := by
  set conv := Conversation.make id title (md.getD []) now with hconv
  set s1 : Sys :=
    { s with ms := { s.ms with conversations := insertA s.ms.conversations conv.id conv } }
    with hs1
  have hb1 : s1.ms.backend = .fileB := hb
  have hwf1 : IndexWF s1.fs := hwf
  rcases ms_save_conversation_fileB s1 conv hb1 hwf1 with ⟨s2, hsave, hms, hwf2, hcf, hk⟩
  have hcid : conv.id = id := rfl
  refine ⟨s2, ?_, ?_, rfl, ?_⟩
  · simp only [MessageStore.create_conversation, if_neg hid, ← hconv, ← hs1, hsave]
  · rw [hms, hs1]
    simp only []
    rw [hcid, lookupA_insertA_self]
  · rw [hcf, hcid, lookupA_insertA_self]

/-- Witness for C10 at a concrete store holding a conversation "c" with one
message. -/
theorem create_conversation_existing_id_replaces_witness :
    ∃ s', MessageStore.create_conversation
        { ms := { conversations :=
            [("c", { id := "c", title := "t", created_at := 0, metadata := [],
                     messages := [{ id := "m1", content := "old", role := "user",
                                    created_at := 0, metadata := [] }], actions := [] })],
                  backend := .fileB },
          fs := { storeFile := some (.json (.obj [("conversation_ids", .arr [.str "c"])])),
                  convFiles := [] } }
        none (some "c") none "g" 5 =
        (.ok (Conversation.make "c" none [] 5), s') ∧
      lookupA s'.ms.conversations "c" = some (Conversation.make "c" none [] 5) ∧
      (Conversation.make "c" none [] 5).messages = [] ∧
      lookupA s'.fs.convFiles "c" =
        some (.json (encodeDT (Conversation.make "c" none [] 5).model_dump)) := by
  exact create_conversation_existing_id_replaces _ "c" _ none none "g" 5 rfl (by decide) rfl
    ⟨[("conversation_ids", .arr [.str "c"])], [.str "c"], rfl, rfl, rfl⟩

/-- An empty in-memory-backed `MessageStore`. -/
def sysMem0 : Sys := { ms := { conversations := [], backend := .memoryB [] }, fs := emptyFS }

/-- Counterexample for C2: on the empty identifier (absent from the empty
store), `add_message` succeeds but — because `create_conversation` replaces a
falsy id argument by a fresh uuid — afterwards no conversation with identifier
`""` exists; the message went into a conversation named by the generated
uuid. -/
theorem add_message_empty_id_creates_other_id :
    (MessageStore.add_message sysMem0 "" "hi" "user" none "gen-uuid" "mid" 0 1).1 =
      .ok { id := "mid", content := "hi", role := "user", created_at := 1, metadata := [] } ∧
    lookupA (MessageStore.add_message sysMem0 "" "hi" "user" none
      "gen-uuid" "mid" 0 1).2.ms.conversations "" = none ∧
    lookupA (MessageStore.add_message sysMem0 "" "hi" "user" none
      "gen-uuid" "mid" 0 1).2.ms.conversations "gen-uuid" =
      some { Conversation.make "gen-uuid" none [] 0 with
             messages := [{ id := "mid", content := "hi", role := "user",
                            created_at := 1, metadata := [] }] } := by
  refine ⟨rfl, rfl, ?_⟩
  rfl

/-- C2 (amended): for every non-empty identifier absent from the store,
`add_message` first creates a conversation under that identifier, then appends
the new message and returns it; on an empty store the call leaves exactly one
conversation, holding exactly that one message with the given content and
role. -/
theorem add_message_absent_id_creates (s : Sys) (cid content role : String)
    (md : Option (List (String × PyVal))) (g1 g2 : String) (n1 n2 : Nat)
    (m : Message) (s' : Sys)
    (hcid : cid ≠ "")
    (habs : lookupA s.ms.conversations cid = none)
    (hok : MessageStore.add_message s cid content role md g1 g2 n1 n2 = (.ok m, s')) :
    m.content = content ∧ m.role = role ∧
    (∃ c, lookupA s'.ms.conversations cid = some c ∧ c.messages = [m]) ∧
    (s.ms.conversations = [] → ∃ c, s'.ms.conversations = [(cid, c)] ∧ c.messages = [m]) := by
  simp only [MessageStore.add_message, habs, MessageStore.create_conversation, if_neg hcid,
    Option.getD_none] at hok
  split at hok
  · exact absurd hok (by simp)
  · rename_i key conv s1 heq
    split at heq
    · rename_i a s2 heq2
      split at heq2
      · rename_i u sx heq3
        simp only [Prod.mk.injEq, Except.ok.injEq] at heq2 heq
        obtain ⟨ha, hs2⟩ := heq2
        subst ha
        subst hs2
        obtain ⟨⟨hkey, hconv⟩, hs1⟩ := heq
        subst hkey
        subst hconv
        subst hs1
        split at hok
        · rename_i u2 s3 heq4
          simp only [Prod.mk.injEq, Except.ok.injEq] at hok
          obtain ⟨hm, hs'⟩ := hok
          subst hs'
          have hA := save_conversation_preserves_conversations
            { ms := { conversations := insertA s.ms.conversations
                        (Conversation.make cid none [] n1).id (Conversation.make cid none [] n1),
                      backend := s.ms.backend },
              fs := s.fs }
            (Conversation.make cid none [] n1)
          rw [heq3] at hA
          simp only [] at hA
          have hB := congrArg (fun p : (Except PyErr Unit) × Sys => p.2.ms.conversations) heq4
          simp only [] at hB
          rw [save_conversation_preserves_conversations] at hB
          simp only [] at hB
          have hcidc : (Conversation.make cid none [] n1).id = cid := rfl
          refine ⟨by rw [← hm], by rw [← hm], ?_, ?_⟩
          · refine ⟨{ Conversation.make cid none [] n1 with
                messages := (Conversation.make cid none [] n1).messages ++ [m] }, ?_, ?_⟩
            · rw [← hB, ← hm, hcidc]
              exact lookupA_insertA_self _ _ _
            · simp [Conversation.make]
          · intro hnil
            refine ⟨{ Conversation.make cid none [] n1 with
                messages := (Conversation.make cid none [] n1).messages ++ [m] }, ?_, ?_⟩
            · rw [← hB, ← hm, hA, hnil, hcidc]
              simp [insertA]
              exact hcidc.symm
            · simp [Conversation.make]
        · exact absurd hok (by simp)
      · exact absurd heq2 (by simp)
    · exact absurd heq (by simp)

/-- Witness for C2's amended theorem: `add_message("new-id", "hi", "user")` on
the empty store. -/
theorem add_message_absent_id_creates_witness :
    ∃ m s', MessageStore.add_message sysMem0 "new-id" "hi" "user" none "g1" "g2" 0 1 =
        (.ok m, s') ∧
      (m.content = "hi" ∧ m.role = "user" ∧
       (∃ c, lookupA s'.ms.conversations "new-id" = some c ∧ c.messages = [m]) ∧
       (sysMem0.ms.conversations = [] →
         ∃ c, s'.ms.conversations = [("new-id", c)] ∧ c.messages = [m])) := by
  refine ⟨_, _, rfl, ?_⟩
  exact add_message_absent_id_creates sysMem0 "new-id" "hi" "user" none "g1" "g2" 0 1 _ _
    (by decide) rfl rfl

/-- The bound conversation's queue as this connection's loop reads it. -/
def qBound (bound : String) (s : BC) : List Upd := (lookupA s.queues bound).getD []

/-- The payloads delivered to this connection from one of the two queues
(`true` = conversation queue, `false` = default queue), in delivery order. -/
def deliveredFrom (b : Bool) (s : BC) : List Upd :=
  (s.delivered.filter (fun p => p.1 == b)).map Prod.snd

/-- Invariant tying a broadcast state to the payloads sent so far for the
bound conversation: each of the two queues holds exactly the not yet delivered
suffix of the send sequence (for the default queue, of its matching part). -/
def BCInv (bound : String) (sent : List Upd) (s : BC) : Prop :=
  s.bound = bound ∧
  deliveredFrom true s ++ qBound bound s = sent ∧
  deliveredFrom false s ++ s.defQ.filter (fun u => u.cid == bound) = sent

theorem connect_inv (bound : String) (hb : bound ≠ "") : BCInv bound [] (BC.connect bound) := by
  refine ⟨rfl, ?_, ?_⟩ <;>
    simp [BC.connect, qBound, deliveredFrom, if_neg hb, lookupA]

theorem send_update_bound (s : BC) (c : String) (uid : Nat) :
    (UIServer.send_update s c uid).bound = s.bound := rfl

theorem send_update_defQ (s : BC) (c : String) (uid : Nat) :
    (UIServer.send_update s c uid).defQ = s.defQ ++ [⟨c, uid⟩] := rfl

theorem send_update_qBound_self (s : BC) (c : String) (uid : Nat) :
    qBound c (UIServer.send_update s c uid) = qBound c s ++ [⟨c, uid⟩] := by
  unfold qBound UIServer.send_update
  cases hq : lookupA s.queues c with
  | some q => simp [hq, lookupA_insertA_self]
  | none => simp [hq, lookupA_insertA_self]

theorem send_update_qBound_other (s : BC) (b c : String) (uid : Nat) (h : b ≠ c) :
    qBound b (UIServer.send_update s c uid) = qBound b s := by
  unfold qBound UIServer.send_update
  cases hq : lookupA s.queues c with
  | some q => simp [hq, lookupA_insertA_ne _ _ _ _ h]
  | none => simp [hq, lookupA_insertA_ne _ _ _ _ h]

theorem send_update_inv (bound : String) (sent : List Upd) (s : BC) (c : String) (uid : Nat)
    (h : BCInv bound sent s) :
    BCInv bound (sent ++ if c = bound then [⟨c, uid⟩] else [])
      (UIServer.send_update s c uid) := by
  obtain ⟨h1, h2, h3⟩ := h
  have hd : deliveredFrom true (UIServer.send_update s c uid) = deliveredFrom true s := rfl
  have hd' : deliveredFrom false (UIServer.send_update s c uid) = deliveredFrom false s := rfl
  refine ⟨by rw [send_update_bound, h1], ?_, ?_⟩
  · by_cases hc : c = bound
    · subst hc
      rw [hd, send_update_qBound_self, ← List.append_assoc, h2, if_pos rfl]
    · rw [hd, send_update_qBound_other s bound c uid (Ne.symm hc), h2, if_neg hc,
        List.append_nil]
  · rw [hd', send_update_defQ, List.filter_append]
    by_cases hc : c = bound
    · subst hc
      have hf : List.filter (fun u => u.cid == c) [(⟨c, uid⟩ : Upd)] = [⟨c, uid⟩] := by
        simp [List.filter]
      rw [hf, ← List.append_assoc, h3, if_pos rfl]
    · have hf : List.filter (fun u => u.cid == bound) [(⟨c, uid⟩ : Upd)] = [] := by
        have hcb : (c == bound) = false := beq_eq_false_iff_ne.mpr hc
        simp [List.filter, hcb]
      rw [hf, List.append_nil, h3, if_neg hc, List.append_nil]

theorem processDefault_nil (s : BC) (h : s.defQ = []) : processDefault s = s := by
  unfold processDefault
  rw [h]

theorem processDefault_deliver (s : BC) (u : Upd) (q : List Upd) (h : s.defQ = u :: q)
    (hm : (decide (s.bound = "") || (u.cid == s.bound)) = true) :
    processDefault s = { s with defQ := q, delivered := s.delivered ++ [(false, u)] } := by
  unfold processDefault
  rw [h]
  simp only [hm, if_true]

theorem processDefault_drop (s : BC) (u : Upd) (q : List Upd) (h : s.defQ = u :: q)
    (hm : (decide (s.bound = "") || (u.cid == s.bound)) = false) :
    processDefault s = { s with defQ := q } := by
  unfold processDefault
  rw [h]
  simp only [hm, Bool.false_eq_true, if_false]

theorem processDefault_inv (bound : String) (sent : List Upd) (s : BC) (hb : bound ≠ "")
    (h : BCInv bound sent s) : BCInv bound sent (processDefault s) := by
  obtain ⟨h1, h2, h3⟩ := h
  cases hdq : s.defQ with
  | nil => rw [processDefault_nil s hdq]; exact ⟨h1, h2, h3⟩
  | cons u q =>
    cases hc : (u.cid == bound) with
    | true =>
      have hm : (decide (s.bound = "") || (u.cid == s.bound)) = true := by
        simp [h1, hb, hc]
      rw [processDefault_deliver s u q hdq hm]
      refine ⟨h1, ?_, ?_⟩
      · have e1 : deliveredFrom true
            { s with defQ := q, delivered := s.delivered ++ [(false, u)] } =
            deliveredFrom true s := by
          simp [deliveredFrom, List.filter_append, List.filter]
        have e2 : qBound bound
            { s with defQ := q, delivered := s.delivered ++ [(false, u)] } =
            qBound bound s := rfl
        rw [e1, e2]
        exact h2
      · have e1 : deliveredFrom false
            { s with defQ := q, delivered := s.delivered ++ [(false, u)] } =
            deliveredFrom false s ++ [u] := by
          simp [deliveredFrom, List.filter_append, List.filter]
        show deliveredFrom false _ ++ List.filter (fun v => v.cid == bound) q = sent
        rw [e1, List.append_assoc]
        rw [hdq, List.filter] at h3
        simp only [hc] at h3
        simpa using h3
    | false =>
      have hm : (decide (s.bound = "") || (u.cid == s.bound)) = false := by
        simp [h1, hb, hc]
      rw [processDefault_drop s u q hdq hm]
      refine ⟨h1, h2, ?_⟩
      show deliveredFrom false _ ++ List.filter (fun v => v.cid == bound) q = sent
      rw [hdq, List.filter] at h3
      simp only [hc] at h3
      exact h3

theorem processQueueStep_conv (s : BC) (u : Upd) (q : List Upd)
    (hb : ¬ s.bound = "") (hq : lookupA s.queues s.bound = some (u :: q)) :
    processQueueStep s = { s with queues := insertA s.queues s.bound q,
                                  delivered := s.delivered ++ [(true, u)] } := by
  unfold processQueueStep
  rw [if_neg hb, hq]

theorem processQueueStep_default_none (s : BC) (hb : ¬ s.bound = "")
    (hq : lookupA s.queues s.bound = none) :
    processQueueStep s = processDefault s := by
  unfold processQueueStep
  rw [if_neg hb, hq]

theorem processQueueStep_default_nil (s : BC) (hb : ¬ s.bound = "")
    (hq : lookupA s.queues s.bound = some []) :
    processQueueStep s = processDefault s := by
  unfold processQueueStep
  rw [if_neg hb, hq]

theorem processQueueStep_inv (bound : String) (sent : List Upd) (s : BC) (hb : bound ≠ "")
    (h : BCInv bound sent s) : BCInv bound sent (processQueueStep s) := by
  obtain ⟨h1, h2, h3⟩ := h
  have hbne : ¬ s.bound = "" := by rw [h1]; exact hb
  cases hq : lookupA s.queues s.bound with
  | none =>
    rw [processQueueStep_default_none s hbne hq]
    exact processDefault_inv bound sent s hb ⟨h1, h2, h3⟩
  | some l =>
    cases l with
    | nil =>
      rw [processQueueStep_default_nil s hbne hq]
      exact processDefault_inv bound sent s hb ⟨h1, h2, h3⟩
    | cons u q =>
      rw [processQueueStep_conv s u q hbne hq]
      rw [h1] at hq
      have hq2 : qBound bound s = u :: q := by
        rw [qBound, hq]
        rfl
      refine ⟨h1, ?_, ?_⟩
      · have e1 : deliveredFrom true
            { s with queues := insertA s.queues s.bound q,
                     delivered := s.delivered ++ [(true, u)] } =
            deliveredFrom true s ++ [u] := by
          simp [deliveredFrom, List.filter_append, List.filter]
        have e2 : qBound bound
            { s with queues := insertA s.queues s.bound q,
                     delivered := s.delivered ++ [(true, u)] } = q := by
          show (lookupA (insertA s.queues s.bound q) bound).getD [] = q
          rw [h1, lookupA_insertA_self]
          rfl
        rw [e1, e2, List.append_assoc]
        rw [hq2] at h2
        simpa using h2
      · have e1 : deliveredFrom false
            { s with queues := insertA s.queues s.bound q,
                     delivered := s.delivered ++ [(true, u)] } =
            deliveredFrom false s := by
          simp [deliveredFrom, List.filter_append, List.filter]
        show deliveredFrom false _ ++ List.filter (fun v => v.cid == bound) s.defQ = sent
        rw [e1]
        exact h3

theorem run_inv (bound : String) (hb : bound ≠ "") (evs : List BEv) :
    ∀ s sent, BCInv bound sent s → BCInv bound (sent ++ sentTo bound evs) (BC.run s evs) := by
  induction evs with
  | nil =>
    intro s sent h
    simpa [BC.run, sentTo] using h
  | cons e evs ih =>
    intro s sent h
    cases e with
    | send c uid =>
      have h' := send_update_inv bound sent s c uid h
      by_cases hc : c = bound
      · subst hc
        rw [if_pos rfl] at h'
        have := ih _ _ h'
        simpa [BC.run, sentTo, List.append_assoc] using this
      · rw [if_neg hc] at h'
        rw [List.append_nil] at h'
        have := ih _ _ h'
        simpa [BC.run, sentTo, hc] using this
    | deliver =>
      have h' := processQueueStep_inv bound sent s hb h
      simpa [BC.run, sentTo] using ih _ _ h'

theorem sentTo_cid (cid : String) (evs : List BEv) : ∀ u ∈ sentTo cid evs, u.cid = cid := by
  induction evs with
  | nil => intro u hu; simp [sentTo] at hu
  | cons e evs ih =>
    intro u hu
    cases e with
    | send c uid =>
      by_cases hc : c = cid
      · subst hc
        simp only [sentTo, if_pos rfl] at hu
        rcases List.mem_cons.mp hu with h | h
        · rw [h]
        · exact ih u h
      · simp only [sentTo, if_neg hc] at hu
        exact ih u hu
    | deliver =>
      simp only [sentTo] at hu
      exact ih u hu

/-- C5: a websocket subscriber bound to one conversation never receives a
payload stamped with a different conversation's identifier, whatever the
interleaving of `send_update` calls and delivery-loop iterations. -/
theorem bound_subscriber_never_receives_other_conversation (bound B : String) (evs : List BEv)
    (hb : bound ≠ "") (hB : B ≠ bound) :
    ∀ p ∈ (BC.run (BC.connect bound) evs).delivered, p.2.cid ≠ B := by
  have hinv := run_inv bound hb evs (BC.connect bound) [] (connect_inv bound hb)
  rw [List.nil_append] at hinv
  obtain ⟨h1, h2, h3⟩ := hinv
  intro p hp
  have hcid : p.2.cid = bound := by
    cases hb1 : p.1 with
    | true =>
      have hmem : p.2 ∈ deliveredFrom true (BC.run (BC.connect bound) evs) := by
        apply List.mem_map_of_mem
        exact List.mem_filter.mpr ⟨hp, by simp [hb1]⟩
      have hsent : p.2 ∈ sentTo bound evs := by
        rw [← h2]
        exact List.mem_append_left _ hmem
      exact sentTo_cid bound evs _ hsent
    | false =>
      have hmem : p.2 ∈ deliveredFrom false (BC.run (BC.connect bound) evs) := by
        apply List.mem_map_of_mem
        exact List.mem_filter.mpr ⟨hp, by simp [hb1]⟩
      have hsent : p.2 ∈ sentTo bound evs := by
        rw [← h3]
        exact List.mem_append_left _ hmem
      exact sentTo_cid bound evs _ hsent
  rw [hcid]
  exact Ne.symm hB

/-- Witness for C5 at a concrete schedule: the payload delivered to the
subscriber bound to "A" after sends for "B" and "A" is not stamped "B". -/
theorem bound_subscriber_never_receives_other_conversation_witness :
    (⟨"A", 1⟩ : Upd).cid ≠ "B" :=
  bound_subscriber_never_receives_other_conversation "A" "B"
    [.send "B" 7, .send "A" 1, .deliver, .deliver] (by decide) (by decide)
    (true, ⟨"A", 1⟩) (by decide)

/-- Counterexample for C4: after one `send_update` for the subscribed
conversation and two delivery-loop iterations, the payload has been delivered
twice — once from the conversation queue and once from the default queue — so
the delivered sequence is not even a subsequence of the send sequence
(once-delivery fails). -/
theorem update_delivered_twice :
    ¬ List.Sublist
        ((BC.run (BC.connect "A") [.send "A" 1, .deliver, .deliver]).delivered.map Prod.snd)
        (sentTo "A" [.send "A" 1, .deliver, .deliver]) := by
  intro h
  have h1 : (BC.run (BC.connect "A") [.send "A" 1, .deliver, .deliver]).delivered.map Prod.snd
      = [⟨"A", 1⟩, ⟨"A", 1⟩] := rfl
  have h2 : sentTo "A" [.send "A" 1, .deliver, .deliver] = [⟨"A", 1⟩] := rfl
  rw [h1, h2] at h
  have := h.length_le
  simp at this

theorem count_map_snd_split (l : List (Bool × Upd)) (u : Upd) :
    (l.map Prod.snd).count u =
      ((l.filter (fun p => p.1 == true)).map Prod.snd).count u +
      ((l.filter (fun p => p.1 == false)).map Prod.snd).count u := by
  induction l with
  | nil => simp
  | cons hd tl ih =>
    rcases hd with ⟨b, v⟩
    cases b <;> simp [List.filter, List.count_cons, ih] <;> ring

/-- C4 (amended): for a bound subscriber, the deliveries drawn from the
conversation queue form a prefix of the send sequence for that conversation,
and so do the deliveries drawn from the default queue — each stream preserves
the send order and contains no foreign payloads — but a payload can be
delivered once from each of the two queues, so it arrives up to twice rather
than exactly once. -/
theorem per_queue_delivery_order (bound : String) (evs : List BEv) (hb : bound ≠ "") :
    (deliveredFrom true (BC.run (BC.connect bound) evs) <+: sentTo bound evs) ∧
    (deliveredFrom false (BC.run (BC.connect bound) evs) <+: sentTo bound evs) ∧
    ∀ u : Upd, ((BC.run (BC.connect bound) evs).delivered.map Prod.snd).count u ≤
      2 * (sentTo bound evs).count u := by
  have hinv := run_inv bound hb evs (BC.connect bound) [] (connect_inv bound hb)
  rw [List.nil_append] at hinv
  obtain ⟨h1, h2, h3⟩ := hinv
  refine ⟨⟨_, h2⟩, ⟨_, h3⟩, ?_⟩
  intro u
  rw [count_map_snd_split]
  have c1 : (deliveredFrom true (BC.run (BC.connect bound) evs)).count u ≤
      (sentTo bound evs).count u := by
    rw [← h2]
    exact (List.sublist_append_left _ _).count_le u
  have c2 : (deliveredFrom false (BC.run (BC.connect bound) evs)).count u ≤
      (sentTo bound evs).count u := by
    rw [← h3]
    exact (List.sublist_append_left _ _).count_le u
  rw [deliveredFrom] at c1 c2
  omega

/-- Witness for C4's amended theorem at a concrete schedule. -/
theorem per_queue_delivery_order_witness :
    (deliveredFrom true (BC.run (BC.connect "A") [.send "A" 1, .deliver, .deliver]) <+:
      sentTo "A" [.send "A" 1, .deliver, .deliver]) ∧
    (deliveredFrom false (BC.run (BC.connect "A") [.send "A" 1, .deliver, .deliver]) <+:
      sentTo "A" [.send "A" 1, .deliver, .deliver]) ∧
    ((BC.run (BC.connect "A") [.send "A" 1, .deliver, .deliver]).delivered.map
        Prod.snd).count ⟨"A", 1⟩ ≤
      2 * (sentTo "A" [.send "A" 1, .deliver, .deliver]).count ⟨"A", 1⟩ := by
  have h := per_queue_delivery_order "A" [.send "A" 1, .deliver, .deliver] (by decide)
  exact ⟨h.1, h.2.1, h.2.2 ⟨"A", 1⟩⟩

/-- A successful `add_message` on a non-empty id leaves the conversation under
that id with the fresh message appended at the end. -/
theorem add_message_appends (s : Sys) (cid content role : String)
    (md : Option (List (String × PyVal))) (g1 g2 : String) (n1 n2 : Nat)
    (m : Message) (s' : Sys)
    (hcid : cid ≠ "")
    (hok : MessageStore.add_message s cid content role md g1 g2 n1 n2 = (.ok m, s')) :
    m.content = content ∧ m.role = role ∧
    ∃ c, lookupA s'.ms.conversations cid = some c ∧ ∃ pre, c.messages = pre ++ [m] := by
  cases hpre : lookupA s.ms.conversations cid with
  | some conv =>
    simp only [MessageStore.add_message, hpre, Option.getD_none] at hok
    split at hok
    · rename_i u2 s3 heq4
      simp only [Prod.mk.injEq, Except.ok.injEq] at hok
      obtain ⟨hm, hs'⟩ := hok
      subst hs'
      have hB := congrArg (fun p : (Except PyErr Unit) × Sys => p.2.ms.conversations) heq4
      simp only [] at hB
      rw [save_conversation_preserves_conversations] at hB
      simp only [] at hB
      refine ⟨by rw [← hm], by rw [← hm], ?_⟩
      refine ⟨{ conv with messages := conv.messages ++ [m] }, ?_, conv.messages, rfl⟩
      rw [← hB, ← hm]
      exact lookupA_insertA_self _ _ _
    · exact absurd hok (by simp)
  | none =>
    simp only [MessageStore.add_message, hpre, MessageStore.create_conversation, if_neg hcid,
      Option.getD_none] at hok
    split at hok
    · exact absurd hok (by simp)
    · rename_i key conv s1 heq
      split at heq
      · rename_i a s2 heq2
        split at heq2
        · rename_i u sx heq3
          simp only [Prod.mk.injEq, Except.ok.injEq] at heq2 heq
          obtain ⟨ha, hs2⟩ := heq2
          subst ha
          subst hs2
          obtain ⟨⟨hkey, hconv⟩, hs1⟩ := heq
          subst hkey
          subst hconv
          subst hs1
          split at hok
          · rename_i u2 s3 heq4
            simp only [Prod.mk.injEq, Except.ok.injEq] at hok
            obtain ⟨hm, hs'⟩ := hok
            subst hs'
            have hB := congrArg (fun p : (Except PyErr Unit) × Sys => p.2.ms.conversations) heq4
            simp only [] at hB
            rw [save_conversation_preserves_conversations] at hB
            simp only [] at hB
            have hcidc : (Conversation.make cid none [] n1).id = cid := rfl
            refine ⟨by rw [← hm], by rw [← hm], ?_⟩
            refine ⟨{ Conversation.make cid none [] n1 with
                messages := (Conversation.make cid none [] n1).messages ++ [m] }, ?_,
              (Conversation.make cid none [] n1).messages, rfl⟩
            rw [← hB, ← hm, hcidc]
            exact lookupA_insertA_self _ _ _
          · exact absurd hok (by simp)
        · exact absurd heq2 (by simp)
      · exact absurd heq (by simp)

/-- C8: if the agent's response generation raises while handling
`POST /api/message`, the endpoint returns a 500 response whose JSON body
carries an `error` and a `detail` field, and the user message appended to the
conversation before the failure remains in the store — the post-append state
is exactly the state the handler leaves behind, with no rollback. -/
theorem handler_error_returns_500_and_keeps_user_message
    (handler : String → String → Except String String)
    (s : Sys) (cid msg e : String) (g1 g2 g3 g4 : String) (n1 n2 n3 n4 : Nat)
    (m : Message) (s1 : Sys)
    (hcid : cid ≠ "") (hmsg : msg ≠ "")
    (hhandler : handler cid msg = .error e)
    (hadd : MessageStore.add_message s cid msg "user" none g1 g2 n1 n2 = (.ok m, s1)) :
    handle_message handler s (some cid) (some msg) g1 g2 g3 g4 n1 n2 n3 n4 =
      ({ status := 500,
         body := .obj [("error", .str "Failed to process message"), ("detail", .str e)] },
       s1) ∧
    m.content = msg ∧ m.role = "user" ∧
    ∃ c, lookupA s1.ms.conversations cid = some c ∧ ∃ pre, c.messages = pre ++ [m] := by
  obtain ⟨hc, hr, hconv⟩ := add_message_appends s cid msg "user" none g1 g2 n1 n2 m s1 hcid hadd
  refine ⟨?_, hc, hr, hconv⟩
  simp only [handle_message, Option.getD_some, BaseAgent.on_message, hadd, hhandler]
  rw [if_neg (by simp [hcid, hmsg])]

/-- Witness for C8: a handler that raises "boom" on the empty store. -/
theorem handler_error_returns_500_and_keeps_user_message_witness :
    ∃ m s1, MessageStore.add_message sysMem0 "c" "hi" "user" none "g1" "g2" 0 1 =
        (.ok m, s1) ∧
      (handle_message (fun _ _ => .error "boom") sysMem0 (some "c") (some "hi")
          "g1" "g2" "g3" "g4" 0 1 2 3 =
        ({ status := 500,
           body := .obj [("error", .str "Failed to process message"),
                         ("detail", .str "boom")] }, s1) ∧
       m.content = "hi" ∧ m.role = "user" ∧
       ∃ c, lookupA s1.ms.conversations "c" = some c ∧ ∃ pre, c.messages = pre ++ [m]) := by
  refine ⟨_, _, rfl, ?_⟩
  exact handler_error_returns_500_and_keeps_user_message (fun _ _ => .error "boom")
    sysMem0 "c" "hi" "boom" "g1" "g2" "g3" "g4" 0 1 2 3 _ _
    (by decide) (by decide) rfl rfl

theorem hasDtList_map_str {α : Type} (l : List α) (f : α → String) :
    PyVal.hasDtList (l.map (fun x => PyVal.str (f x))) = false := by
  induction l with
  | nil => rfl
  | cons x xs ih => simp [PyVal.hasDtList, PyVal.hasDt, ih]

/-- `_update_store_index` is a no-op when the id is already listed. -/
theorem update_store_index_noop (fs : FS) (kvs : List (String × PyVal)) (keys : List PyVal)
    (cid : String)
    (hsf : fs.storeFile = some (.json (.obj kvs)))
    (hdt : PyVal.hasDtKVs kvs = false)
    (hids : lookupA kvs "conversation_ids" = some (.arr keys))
    (hin : keys.any (elemEqStr cid) = true) :
    FileStorageBackend.update_store_index fs cid = .ok fs := by
  have hparse : jsonParse (.json (.obj kvs)) = some (.obj kvs) := by
    simp [jsonParse, PyVal.hasDt, hdt]
  simp [FileStorageBackend.update_store_index, hsf, hparse, pyGetD, hids, pyContains, hin]

/-- Saving a batch of conversations whose ids are already listed in the index
leaves the index file untouched and succeeds. -/
theorem saveLoop_keeps_index (keys : List PyVal) :
    ∀ (convs : List (String × Conversation)) (fs : FS) (kvs : List (String × PyVal)),
      fs.storeFile = some (.json (.obj kvs)) →
      PyVal.hasDtKVs kvs = false →
      lookupA kvs "conversation_ids" = some (.arr keys) →
      (∀ kc ∈ convs, PyVal.str (kc.2).id ∈ keys) →
      ∃ fs', JsonFileStorage.saveLoop convs fs = (.ok (), fs') ∧
        fs'.storeFile = fs.storeFile := by
  intro convs
  induction convs with
  | nil => intro fs kvs hsf hdt hids hmem; exact ⟨fs, rfl, rfl⟩
  | cons kc rest ih =>
    intro fs kvs hsf hdt hids hmem
    rcases kc with ⟨k, c⟩
    have hin : keys.any (elemEqStr c.id) = true := by
      refine List.any_eq_true.mpr ⟨.str c.id, ?_, by simp [elemEqStr]⟩
      exact hmem (k, c) (List.mem_cons_self _ _)
    have hnoop := update_store_index_noop
      { fs with convFiles := insertA fs.convFiles c.id (.json (encodeDT c.model_dump)) }
      kvs keys c.id hsf hdt hids hin
    have hsave : JsonFileStorage.save_conversation fs c =
        (.ok (), { fs with convFiles := insertA fs.convFiles c.id (.json (encodeDT c.model_dump)) }) := by
      simp [JsonFileStorage.save_conversation, FileStorageBackend.save_conversation, hnoop]
    rcases ih { fs with convFiles := insertA fs.convFiles c.id (.json (encodeDT c.model_dump)) }
        kvs hsf hdt hids (fun kc' h' => hmem kc' (List.mem_cons_of_mem _ h')) with
      ⟨fs', hloop, hkeep⟩
    refine ⟨fs', ?_, by rw [hkeep]⟩
    simp only [JsonFileStorage.saveLoop, hsave]
    exact hloop

/-- A minimal well-formed serialized conversation file, named "a.json". -/
def aConvFile : FileContent :=
  FileContent.json (PyVal.obj
    [("id", .str "a"), ("title", .str "T"), ("created_at", .str (isoformat 0)),
     ("metadata", .obj []), ("messages", .arr []), ("actions", .arr [])])

/-- The conversation `aConvFile` deserializes to. -/
def aConv : Conversation :=
  { id := "a", title := "T", created_at := 0, metadata := [], messages := [], actions := [] }

/-- A directory whose index file lists no conversations even though one
conversation file exists. -/
def emptyIdxFS : FS :=
  { storeFile := some (.json (.obj [("conversation_ids", .arr [])]))
    convFiles := [("a", aConvFile)] }

/-- Counterexample for C6: the backend the `MessageStore` actually uses.  With
an index listing no conversations and one conversation file on disk,
constructing the store loads the conversation via the directory fallback, yet
the index file afterwards is bit-for-bit the old empty index: no corrected
index is written. -/
theorem load_store_fallback_writes_no_index :
    MessageStore.init (some "d") BackendType.file emptyIdxFS "u" 0 =
      .ok ({ conversations := [("a", aConv)], backend := .fileB }, emptyIdxFS) := by
  rfl

/-- C6 (amended): when the index yields no conversation entries, both
implementations fall back to enumerating the conversation files, but only the
`JsonFileStorage` provider of `persistence.py` then persists a corrected index
listing the conversations the fallback found (and only when it found some);
`FileStorageBackend.load_store`, the implementation the `MessageStore` uses,
returns the fallback result without writing anything. -/
theorem load_store_fallback (fs : FS) (defId : String) (defNow : Nat)
    (kvs : List (String × PyVal))
    (hsf : fs.storeFile = some (.json (.obj kvs)))
    (hdt : PyVal.hasDtKVs kvs = false)
    (hids : lookupA kvs "conversation_ids" = some (.arr []))
    (convs2 : List (String × Conversation))
    (hfb : JsonFileStorage.loadLoop fs defId defNow
        ((FileStorageBackend.list_conversation_ids fs).map PyVal.str) [] = .ok convs2)
    (hne : convs2 ≠ [])
    (hid : ∀ kc ∈ convs2, (kc.2).id = kc.1) :
    (FileStorageBackend.load_store fs =
      FileStorageBackend.loadLoop fs
        ((FileStorageBackend.list_conversation_ids fs).map PyVal.str) []) ∧
    ∃ fs', JsonFileStorage.load_store fs defId defNow = .ok (some convs2, fs') ∧
      fs'.storeFile = some (.json (.obj [("conversation_ids",
        .arr (convs2.map (fun kc => PyVal.str kc.1)))])) := by
  have hparse : jsonParse (.json (.obj kvs)) = some (.obj kvs) := by
    simp [jsonParse, PyVal.hasDt, hdt]
  constructor
  · simp [FileStorageBackend.load_store, hsf, hparse, pyGetD, hids, pyIter,
      FileStorageBackend.loadLoop, Except.bind, bind, List.isEmpty]
  · have hmem : ∀ kc ∈ convs2, PyVal.str (kc.2).id ∈
        convs2.map (fun kc => PyVal.str kc.1) := by
      intro kc h
      rw [hid kc h]
      exact List.mem_map.mpr ⟨kc, h, rfl⟩
    have hdtIdx : PyVal.hasDtKVs [("conversation_ids",
        PyVal.arr (convs2.map (fun kc => PyVal.str kc.1)))] = false := by
      simp [PyVal.hasDtKVs, PyVal.hasDt, hasDtList_map_str]
    rcases saveLoop_keeps_index (convs2.map (fun kc => PyVal.str kc.1)) convs2
        { fs with storeFile := some (.json (.obj [("conversation_ids",
            .arr (convs2.map (fun kc => PyVal.str kc.1)))])) }
        [("conversation_ids", .arr (convs2.map (fun kc => PyVal.str kc.1)))]
        rfl hdtIdx (by simp [lookupA]) hmem with ⟨fs', hloop, hkeep⟩
    refine ⟨fs', ?_, by rw [hkeep]⟩
    have hsaves : JsonFileStorage.save_store fs convs2 = (.ok (), fs') := by
      simp only [JsonFileStorage.save_store]
      exact hloop
    simp [JsonFileStorage.load_store, hsf, hparse, pyGetD, hids, pyIter,
      JsonFileStorage.loadLoop, hfb, hne, hsaves]

/-- Witness for C6's amended theorem at the concrete stale-index directory. -/
theorem load_store_fallback_witness :
    (FileStorageBackend.load_store emptyIdxFS =
      FileStorageBackend.loadLoop emptyIdxFS
        ((FileStorageBackend.list_conversation_ids emptyIdxFS).map PyVal.str) []) ∧
    ∃ fs', JsonFileStorage.load_store emptyIdxFS "u" 0 = .ok (some [("a", aConv)], fs') ∧
      fs'.storeFile = some (.json (.obj [("conversation_ids",
        .arr ([("a", aConv)].map (fun kc => PyVal.str kc.1)))])) :=
  load_store_fallback emptyIdxFS "u" 0 [("conversation_ids", .arr [])] rfl rfl rfl
    [("a", aConv)] rfl (by simp) (fun kc h => by cases List.mem_singleton.mp h; rfl)

mutual

theorem encodeDT_hasDt : ∀ (v : PyVal), (encodeDT v).hasDt = false
  | .null => rfl
  | .bool _ => rfl
  | .num _ => rfl
  | .str _ => rfl
  | .dt _ => rfl
  | .arr xs => by simp [encodeDT, PyVal.hasDt, encodeDTList_hasDt xs]
  | .obj kvs => by simp [encodeDT, PyVal.hasDt, encodeDTKVs_hasDt kvs]

theorem encodeDTList_hasDt : ∀ (xs : List PyVal), PyVal.hasDtList (encodeDTList xs) = false
  | [] => rfl
  | x :: xs => by
    simp [encodeDTList, PyVal.hasDtList, encodeDT_hasDt x, encodeDTList_hasDt xs]

theorem encodeDTKVs_hasDt :
    ∀ (kvs : List (String × PyVal)), PyVal.hasDtKVs (encodeDTKVs kvs) = false
  | [] => rfl
  | (k, v) :: kvs => by
    simp [encodeDTKVs, PyVal.hasDtKVs, encodeDT_hasDt v, encodeDTKVs_hasDt kvs]

end

/-- The value the datetime-restoring pass produces from the serialized form of
a message: `created_at` is a datetime again; nothing else is converted back
(datetimes that were inside `metadata` stay strings). -/
def Message.convertedDump (m : Message) : PyVal :=
  .obj [("id", .str m.id), ("content", .str m.content), ("role", .str m.role),
        ("created_at", .dt m.created_at), ("metadata", .obj (encodeDTKVs m.metadata))]

/-- Same for an action. -/
def ConversationAction.convertedDump (a : ConversationAction) : PyVal :=
  .obj [("id", .str a.id), ("action_type", .str a.action_type),
        ("data", .obj (encodeDTKVs a.data)),
        ("created_at", .dt a.created_at), ("metadata", .obj (encodeDTKVs a.metadata))]

/-- Same for a whole conversation file. -/
def Conversation.convertedDump (c : Conversation) : PyVal :=
  .obj [("id", .str c.id), ("title", .str c.title), ("created_at", .dt c.created_at),
        ("metadata", .obj (encodeDTKVs c.metadata)),
        ("messages", .arr (c.messages.map Message.convertedDump)),
        ("actions", .arr (c.actions.map ConversationAction.convertedDump))]

/-- The message as it comes back out of a save/load round trip: identical
except that datetimes buried in its metadata are now their string renderings. -/
def Message.reload (m : Message) : Message := { m with metadata := encodeDTKVs m.metadata }

/-- Same for an action. -/
def ConversationAction.reload (a : ConversationAction) : ConversationAction :=
  { a with data := encodeDTKVs a.data, metadata := encodeDTKVs a.metadata }

/-- The conversation as it comes back out of a save/load round trip: same id,
timestamps and message/action sequence (up to `reload` of each element); an
empty title is regenerated from the id by `Conversation.__init__`. -/
def Conversation.reload (c : Conversation) : Conversation :=
  { id := c.id
    title := if c.title = "" then defaultTitle c.id else c.title
    created_at := c.created_at
    metadata := encodeDTKVs c.metadata
    messages := c.messages.map Message.reload
    actions := c.actions.map ConversationAction.reload }

/-- The identity-relevant part of a message: id, content and role. -/
def Message.sig (m : Message) : String × String × String := (m.id, m.content, m.role)

theorem reload_sig (c : Conversation) :
    (Conversation.reload c).messages.map Message.sig = c.messages.map Message.sig := by
  simp only [Conversation.reload, List.map_map]
  induction c.messages with
  | nil => rfl
  | cons m ms ih => simp [Message.sig, Message.reload, ih]

theorem convCreatedAt_msg (m : Message) :
    convCreatedAt (encodeDT (Message.model_dump m)) = .ok (Message.convertedDump m) := by
  simp [Message.model_dump, Message.convertedDump, encodeDT, encodeDTKVs, convCreatedAt,
    pyContains, lookupA, insertA, fromisoformat?_isoformat, Except.bind, bind]

theorem convCreatedAt_action (a : ConversationAction) :
    convCreatedAt (encodeDT (ConversationAction.model_dump a)) =
      .ok (ConversationAction.convertedDump a) := by
  simp [ConversationAction.model_dump, ConversationAction.convertedDump, encodeDT, encodeDTKVs,
    convCreatedAt, pyContains, lookupA, insertA, fromisoformat?_isoformat, Except.bind, bind]

theorem convertElemsList_msgs (msgs : List Message) :
    convertElemsList (encodeDTList (msgs.map Message.model_dump)) =
      .ok (msgs.map Message.convertedDump) := by
  induction msgs with
  | nil => rfl
  | cons m ms ih =>
    simp [encodeDTList, convertElemsList, convCreatedAt_msg, ih, Except.bind, bind]

theorem convertElemsList_actions (acts : List ConversationAction) :
    convertElemsList (encodeDTList (acts.map ConversationAction.model_dump)) =
      .ok (acts.map ConversationAction.convertedDump) := by
  induction acts with
  | nil => rfl
  | cons a as ih =>
    simp [encodeDTList, convertElemsList, convCreatedAt_action, ih, Except.bind, bind]

theorem convertConvData_dump (c : Conversation) :
    convertConvData (encodeDT c.model_dump) = .ok c.convertedDump := by
  simp [Conversation.model_dump, Conversation.convertedDump, encodeDT, encodeDTKVs,
    convertConvData, convCreatedAt, pyContains, lookupA, insertA, pyGetD, convertElems,
    pyIter, convertElemsList_msgs, convertElemsList_actions, fromisoformat?_isoformat,
    Except.bind, bind]

theorem parseMessage_convertedDump (defId : String) (defNow : Nat) (m : Message) :
    parseMessage defId defNow (Message.convertedDump m) = .ok (Message.reload m) := by
  simp [parseMessage, Message.convertedDump, Message.reload, parseStrField, parseDtField,
    parseDictField, lookupA, Except.bind, bind]

theorem parseAction_convertedDump (defId : String) (defNow : Nat) (a : ConversationAction) :
    parseAction defId defNow (ConversationAction.convertedDump a) =
      .ok (ConversationAction.reload a) := by
  simp [parseAction, ConversationAction.convertedDump, ConversationAction.reload,
    parseStrField, parseDtField, parseDictField, parseDictFieldReq, lookupA,
    Except.bind, bind]

theorem parseElems_msgs (defId : String) (defNow : Nat) (msgs : List Message) :
    parseElems (parseMessage defId defNow) (msgs.map Message.convertedDump) =
      .ok (msgs.map Message.reload) := by
  induction msgs with
  | nil => rfl
  | cons m ms ih =>
    simp [parseElems, parseMessage_convertedDump, ih, Except.bind, bind]

theorem parseElems_actions (defId : String) (defNow : Nat) (acts : List ConversationAction) :
    parseElems (parseAction defId defNow) (acts.map ConversationAction.convertedDump) =
      .ok (acts.map ConversationAction.reload) := by
  induction acts with
  | nil => rfl
  | cons a as ih =>
    simp [parseElems, parseAction_convertedDump, ih, Except.bind, bind]

theorem parseConversation_convertedDump (defId : String) (defNow : Nat) (c : Conversation) :
    parseConversation defId defNow c.convertedDump = .ok c.reload := by
  have hemp : ("" : String).isEmpty = true := rfl
  by_cases ht : c.title = ""
  · simp [parseConversation, Conversation.convertedDump, Conversation.reload, pyTruthy, ht,
      hemp, parseStrField, parseDtField, parseDictField, parseListField, lookupA, insertA,
      parseElems_msgs, parseElems_actions, Except.bind, bind, pure, Except.pure]
  · have hne : c.title.isEmpty = false := by
      cases he : c.title.isEmpty
      · rfl
      · exact absurd ((String.isEmpty_iff c.title).mp he) ht
    simp [parseConversation, Conversation.convertedDump, Conversation.reload, pyTruthy, ht,
      hne, parseStrField, parseDtField, parseDictField, parseListField, lookupA, insertA,
      parseElems_msgs, parseElems_actions, Except.bind, bind, pure, Except.pure]

theorem mem_insertA {α : Type} (k cid : String) (v' : α) (w : α) :
    ∀ acc : List (String × α),
      (cid, w) ∈ insertA acc k v' → (k = cid ∧ w = v') ∨ (cid, w) ∈ acc := by
  intro acc
  induction acc with
  | nil =>
    intro h
    rcases List.mem_singleton.mp h with h'
    exact Or.inl ⟨(congrArg Prod.fst h').symm, congrArg Prod.snd h'⟩
  | cons hd tl ih =>
    rcases hd with ⟨k₀, v₀⟩
    intro h
    by_cases h0 : k₀ = k
    · rw [insertA, if_pos h0] at h
      rcases List.mem_cons.mp h with h' | h'
      · exact Or.inl ⟨(congrArg Prod.fst h').symm, congrArg Prod.snd h'⟩
      · exact Or.inr (List.mem_cons_of_mem _ h')
    · rw [insertA, if_neg h0] at h
      rcases List.mem_cons.mp h with h' | h'
      · exact Or.inr (h' ▸ List.mem_cons_self _ _)
      · rcases ih h' with h'' | h''
        · exact Or.inl h''
        · exact Or.inr (List.mem_cons_of_mem _ h'')

theorem lookupA_some_mem {α : Type} (cid : String) (v : α) :
    ∀ l : List (String × α), lookupA l cid = some v → (cid, v) ∈ l := by
  intro l
  induction l with
  | nil => intro h; simp [lookupA] at h
  | cons hd tl ih =>
    rcases hd with ⟨k₀, v₀⟩
    intro h
    rw [lookupA] at h
    by_cases h0 : k₀ = cid
    · rw [if_pos h0] at h
      cases h
      exact h0 ▸ List.mem_cons_self _ _
    · rw [if_neg h0] at h
      exact List.mem_cons_of_mem _ (ih h)

/-- If the id's own file loads to a truthy value `v` and the id is listed,
then after the load loop the mapping holds exactly `v` under that id. -/
theorem loadLoop_lookup (fs : FS) (cid : String) (v : PyVal)
    (hload : FileStorageBackend.load_conversation fs cid = .ok (some v))
    (htr : pyTruthy v = true) :
    ∀ ids acc L, FileStorageBackend.loadLoop fs ids acc = .ok L →
      (∀ w, (cid, w) ∈ acc → w = v) →
      (PyVal.str cid ∈ ids ∨ lookupA acc cid = some v) →
      (lookupA L cid = some v ∧ ∀ w, (cid, w) ∈ L → w = v) := by
  intro ids
  induction ids with
  | nil =>
    intro acc L hrun hacc hin
    simp only [FileStorageBackend.loadLoop] at hrun
    cases hrun
    rcases hin with hin | hin
    · simp at hin
    · exact ⟨hin, hacc⟩
  | cons e rest ih =>
    intro acc L hrun hacc hin
    by_cases hecid : pyStrOf e = cid
    · rw [FileStorageBackend.loadLoop, hecid, hload] at hrun
      simp only [htr, if_true] at hrun
      cases e with
      | arr xs => exact absurd hrun (by simp)
      | obj kvs => exact absurd hrun (by simp)
      | null =>
        refine ih _ _ hrun ?_ (Or.inr (lookupA_insertA_self _ _ _))
        intro w hw
        rcases mem_insertA cid cid v w acc hw with h' | h'
        · exact h'.2
        · exact hacc w h'
      | bool b =>
        refine ih _ _ hrun ?_ (Or.inr (lookupA_insertA_self _ _ _))
        intro w hw
        rcases mem_insertA cid cid v w acc hw with h' | h'
        · exact h'.2
        · exact hacc w h'
      | num n =>
        refine ih _ _ hrun ?_ (Or.inr (lookupA_insertA_self _ _ _))
        intro w hw
        rcases mem_insertA cid cid v w acc hw with h' | h'
        · exact h'.2
        · exact hacc w h'
      | str t =>
        refine ih _ _ hrun ?_ (Or.inr (lookupA_insertA_self _ _ _))
        intro w hw
        rcases mem_insertA cid cid v w acc hw with h' | h'
        · exact h'.2
        · exact hacc w h'
      | dt t =>
        refine ih _ _ hrun ?_ (Or.inr (lookupA_insertA_self _ _ _))
        intro w hw
        rcases mem_insertA cid cid v w acc hw with h' | h'
        · exact h'.2
        · exact hacc w h'
    · have hinrest : PyVal.str cid ∈ rest ∨ lookupA acc cid = some v := by
        rcases hin with hin | hin
        · rcases List.mem_cons.mp hin with h' | h'
          · exact absurd (congrArg pyStrOf h'.symm) (by simpa [pyStrOf] using hecid)
          · exact Or.inl h'
        · exact Or.inr hin
      rw [FileStorageBackend.loadLoop] at hrun
      cases hl : FileStorageBackend.load_conversation fs (pyStrOf e) with
      | error err => rw [hl] at hrun; exact absurd hrun (by simp)
      | ok vo =>
        rw [hl] at hrun
        cases vo with
        | none => exact ih _ _ hrun hacc hinrest
        | some v' =>
          cases htr' : pyTruthy v' with
          | false =>
            simp only [htr', Bool.false_eq_true, if_false] at hrun
            exact ih _ _ hrun hacc hinrest
          | true =>
            simp only [htr', if_true] at hrun
            cases e with
            | arr xs => exact absurd hrun (by simp)
            | obj kvs => exact absurd hrun (by simp)
            | null =>
              refine ih _ _ hrun ?_ ?_
              · intro w hw
                rcases mem_insertA (pyStrOf PyVal.null) cid v' w acc hw with h' | h'
                · exact absurd h'.1 hecid
                · exact hacc w h'
              · rcases hinrest with h' | h'
                · exact Or.inl h'
                · exact Or.inr (by rw [lookupA_insertA_ne _ _ _ _ (fun hh => hecid hh.symm)]; exact h')
            | bool b =>
              refine ih _ _ hrun ?_ ?_
              · intro w hw
                rcases mem_insertA (pyStrOf (PyVal.bool b)) cid v' w acc hw with h' | h'
                · exact absurd h'.1 hecid
                · exact hacc w h'
              · rcases hinrest with h' | h'
                · exact Or.inl h'
                · exact Or.inr (by rw [lookupA_insertA_ne _ _ _ _ (fun hh => hecid hh.symm)]; exact h')
            | num n =>
              refine ih _ _ hrun ?_ ?_
              · intro w hw
                rcases mem_insertA (pyStrOf (PyVal.num n)) cid v' w acc hw with h' | h'
                · exact absurd h'.1 hecid
                · exact hacc w h'
              · rcases hinrest with h' | h'
                · exact Or.inl h'
                · exact Or.inr (by rw [lookupA_insertA_ne _ _ _ _ (fun hh => hecid hh.symm)]; exact h')
            | str t =>
              refine ih _ _ hrun ?_ ?_
              · intro w hw
                rcases mem_insertA (pyStrOf (PyVal.str t)) cid v' w acc hw with h' | h'
                · exact absurd h'.1 hecid
                · exact hacc w h'
              · rcases hinrest with h' | h'
                · exact Or.inl h'
                · exact Or.inr (by rw [lookupA_insertA_ne _ _ _ _ (fun hh => hecid hh.symm)]; exact h')
            | dt t =>
              refine ih _ _ hrun ?_ ?_
              · intro w hw
                rcases mem_insertA (pyStrOf (PyVal.dt t)) cid v' w acc hw with h' | h'
                · exact absurd h'.1 hecid
                · exact hacc w h'
              · rcases hinrest with h' | h'
                · exact Or.inl h'
                · exact Or.inr (by rw [lookupA_insertA_ne _ _ _ _ (fun hh => hecid hh.symm)]; exact h')

/-- If every entry listed under `cid` carries the value `v` and `cid` is
listed (or already parsed into the accumulator), the parsing loop of
`_load_from_backend` maps `cid` to the parse of `v`. -/
theorem parseLoop_lookup (defId : String) (defNow : Nat) (cid : String) (v : PyVal)
    (c : Conversation) (hp : parseConversation defId defNow v = .ok c) :
    ∀ entries acc M, MessageStore.parseLoop defId defNow entries acc = .ok M →
      (∀ w, (cid, w) ∈ entries → w = v) →
      ((∃ w, (cid, w) ∈ entries) ∨ lookupA acc cid = some c) →
      lookupA M cid = some c := by
  intro entries
  induction entries with
  | nil =>
    intro acc M hrun hval hin
    simp only [MessageStore.parseLoop] at hrun
    cases hrun
    rcases hin with ⟨w, hw⟩ | hin
    · simp at hw
    · exact hin
  | cons kv rest ih =>
    rcases kv with ⟨k, w0⟩
    intro acc M hrun hval hin
    by_cases hk : k = cid
    · subst hk
      have hw0 : w0 = v := hval w0 (List.mem_cons_self _ _)
      subst hw0
      rw [MessageStore.parseLoop] at hrun
      rw [hp] at hrun
      exact ih _ _ hrun (fun w hw => hval w (List.mem_cons_of_mem _ hw))
        (Or.inr (lookupA_insertA_self _ _ _))
    · rw [MessageStore.parseLoop] at hrun
      cases hpc : parseConversation defId defNow w0 with
      | error e =>
        rw [hpc] at hrun
        exact absurd hrun (by simp)
      | ok c0 =>
        rw [hpc] at hrun
        refine ih _ _ hrun (fun w hw => hval w (List.mem_cons_of_mem _ hw)) ?_
        rcases hin with ⟨w, hw⟩ | hin
        · rcases List.mem_cons.mp hw with h' | h'
          · exact absurd (congrArg Prod.fst h').symm hk
          · exact Or.inl ⟨w, h'⟩
        · refine Or.inr ?_
          rw [lookupA_insertA_ne _ _ _ _ (fun hh => hk hh.symm)]
          exact hin

/-- `add_message` on an id present in a file-backed store (with a well-formed
index): the mapping entry gains the message, the conversation file now holds
the dump of the appended conversation, and the index lists the conversation's
id. -/
theorem add_message_existing_fileB (s : Sys) (cid content role : String)
    (md : Option (List (String × PyVal))) (g1 g2 : String) (n1 n2 : Nat)
    (conv : Conversation) (m : Message) (s' : Sys)
    (hb : s.ms.backend = .fileB) (hwf : IndexWF s.fs)
    (hex : lookupA s.ms.conversations cid = some conv)
    (hadd : MessageStore.add_message s cid content role md g1 g2 n1 n2 = (.ok m, s')) :
    s'.ms.conversations = insertA s.ms.conversations cid
      { conv with messages := conv.messages ++ [m] } ∧
    IndexWF s'.fs ∧
    s'.fs.convFiles = insertA s.fs.convFiles conv.id
      (.json (encodeDT
        (Conversation.model_dump { conv with messages := conv.messages ++ [m] }))) ∧
    ∃ kvs' ids', s'.fs.storeFile = some (.json (.obj kvs')) ∧
      lookupA kvs' "conversation_ids" = some (.arr ids') ∧ PyVal.str conv.id ∈ ids' := by
  simp only [MessageStore.add_message, hex] at hadd
  split at hadd
  · rename_i u2 s3 heq4
    simp only [Prod.mk.injEq, Except.ok.injEq] at hadd
    obtain ⟨hm, hs3⟩ := hadd
    subst hm
    subst hs3
    rcases ms_save_conversation_fileB
        { ms :=
            { conversations := insertA s.ms.conversations cid
                { id := conv.id, title := conv.title, created_at := conv.created_at,
                  metadata := conv.metadata,
                  messages := conv.messages ++
                    [{ id := g2, content := content, role := role, created_at := n2,
                       metadata := md.getD [] }],
                  actions := conv.actions },
              backend := s.ms.backend },
          fs := s.fs }
        { id := conv.id, title := conv.title, created_at := conv.created_at,
          metadata := conv.metadata,
          messages := conv.messages ++
            [{ id := g2, content := content, role := role, created_at := n2,
               metadata := md.getD [] }],
          actions := conv.actions }
        hb hwf with ⟨sB, hsvB, hmsB, hwfB, hcfB, kvs', ids', hsfB, hidsB, hmemB⟩
    rw [hsvB] at heq4
    simp only [Prod.mk.injEq, Except.ok.injEq] at heq4
    obtain ⟨-, hsB⟩ := heq4
    subst hsB
    refine ⟨?_, hwfB, ?_, kvs', ids', hsfB, hidsB, hmemB⟩
    · rw [hmsB]
    · rw [hcfB]
  · exact absurd hadd (by simp)

/-- C1: round-trip persistence.  Appending a message to a conversation held by
a file-backed `MessageStore` (well-formed index, conversation keyed by its own
id) and then constructing a fresh `MessageStore` over the same directory
yields a conversation with the same identifier whose ordered sequence of
(id, content, role) triples is exactly the appended sequence. -/
theorem append_then_reload_round_trip (s : Sys) (cid content role : String)
    (md : Option (List (String × PyVal))) (g1 g2 : String) (n1 n2 : Nat)
    (conv : Conversation) (m : Message) (s' : Sys)
    (dir defId : String) (bt : BackendType) (defNow : Nat) (st2 : MStore) (fs2 : FS)
    (hb : s.ms.backend = .fileB)
    (hwf : IndexWF s.fs)
    (hex : lookupA s.ms.conversations cid = some conv)
    (hcid : conv.id = cid)
    (hadd : MessageStore.add_message s cid content role md g1 g2 n1 n2 = (.ok m, s'))
    (hdir : dir ≠ "")
    (hinit : MessageStore.init (some dir) bt s'.fs defId defNow = .ok (st2, fs2)) :
    ∃ c2, lookupA st2.conversations cid = some c2 ∧ c2.id = cid ∧
      c2.messages.map Message.sig = (conv.messages ++ [m]).map Message.sig := by
  subst hcid
  obtain ⟨hconvs, hwf', hcf, kvs', ids', hsf, hids, hmem⟩ :=
    add_message_existing_fileB s conv.id content role md g1 g2 n1 n2 conv m s' hb hwf hex hadd
  set convA : Conversation := { conv with messages := conv.messages ++ [m] } with hconvA
  have hinitFS : FileStorageBackend.initFS s'.fs = s'.fs := by
    unfold FileStorageBackend.initFS
    rw [hsf]
  simp only [MessageStore.init, if_neg hdir, hinitFS] at hinit
  split at hinit
  · exact absurd hinit (by simp)
  · rename_i data heqL
    split at hinit
    · exact absurd hinit (by simp)
    · rename_i convs heqP
      simp only [Prod.mk.injEq, Except.ok.injEq] at hinit
      obtain ⟨hst2, hfs2⟩ := hinit
      subst hst2
      have hdt' : PyVal.hasDtKVs kvs' = false := by
        rcases hwf' with ⟨kvsW, idsW, hW1, hW2, hW3⟩
        rw [hsf] at hW1
        simp only [Option.some.injEq, FileContent.json.injEq, PyVal.obj.injEq] at hW1
        rw [hW1]
        exact hW2
      have hjson : jsonParse (.json (.obj kvs')) = some (.obj kvs') := by
        simp [jsonParse, PyVal.hasDt, hdt']
      have hfile : lookupA s'.fs.convFiles conv.id =
          some (.json (encodeDT (Conversation.model_dump convA))) := by
        rw [hcf]
        exact lookupA_insertA_self _ _ _
      have hload : FileStorageBackend.load_conversation s'.fs conv.id =
          .ok (some (Conversation.convertedDump convA)) := by
        rw [FileStorageBackend.load_conversation, hfile]
        simp [jsonParse, encodeDT_hasDt, convertConvData_dump]
      rw [FileStorageBackend.load_store, hsf] at heqL
      simp only [hjson, pyGetD, hids, Option.getD, pyIter, Except.bind, bind] at heqL
      split at heqL
      · exact absurd heqL (by simp)
      · rename_i L heqLL
        have hLk := loadLoop_lookup s'.fs conv.id (Conversation.convertedDump convA)
          hload rfl ids' [] L heqLL (by intro w hw; simp at hw) (Or.inl hmem)
        have hLne : L.isEmpty = false := by
          cases L with
          | nil => simp [lookupA] at hLk
          | cons a as => rfl
        rw [hLne] at heqL
        simp only [Bool.false_eq_true, if_false, Except.ok.injEq] at heqL
        subst heqL
        have hfinal := parseLoop_lookup defId defNow conv.id
          (Conversation.convertedDump convA) (Conversation.reload convA)
          (parseConversation_convertedDump defId defNow convA)
          L [] convs heqP hLk.2 (Or.inl ⟨_, lookupA_some_mem _ _ _ hLk.1⟩)
        refine ⟨Conversation.reload convA, hfinal, rfl, ?_⟩
        rw [reload_sig, hconvA]

/-- A store holding one conversation "c" with one message, file-backed. -/
def c1Conv : Conversation :=
  { id := "c", title := "T", created_at := 0, metadata := []
    messages := [{ id := "m0", content := "first", role := "user", created_at := 0,
                   metadata := [] }]
    actions := [] }

/-- The file-backed system state the round-trip witness starts from. -/
def c1Sys : Sys :=
  { ms := { conversations := [("c", c1Conv)], backend := .fileB }
    fs := { storeFile := some (.json (.obj [("conversation_ids", .arr [.str "c"])]))
            convFiles := [] } }

/-- Witness for C1: append "hello" to conversation "c" and reload from a fresh
store over the same directory. -/
theorem append_then_reload_round_trip_witness :
    ∃ m s' st2 fs2,
      MessageStore.add_message c1Sys "c" "hello" "user" none "g1" "g2" 1 2 = (.ok m, s') ∧
      MessageStore.init (some "d") BackendType.file s'.fs "u" 9 = .ok (st2, fs2) ∧
      ∃ c2, lookupA st2.conversations "c" = some c2 ∧ c2.id = "c" ∧
        c2.messages.map Message.sig = (c1Conv.messages ++ [m]).map Message.sig := by
  refine ⟨_, _, _, _, rfl, rfl, ?_⟩
  exact append_then_reload_round_trip c1Sys "c" "hello" "user" none "g1" "g2" 1 2
    c1Conv _ _ "d" "u" BackendType.file 9 _ _ rfl
    ⟨[("conversation_ids", .arr [.str "c"])], [.str "c"], rfl, rfl, rfl⟩
    rfl rfl rfl (by decide) rfl
